import Mathlib

/-!
Shallow embedding of the text anchor and re-highlight engine of the
website-highlight-saver extension, together with the bounded caches, the
batch scheduler and the background persistence service.

The JavaScript sources are translated function by function:

* JS strings are Lean `String`s; `indexOf`, `includes`, `substring`,
  `toLowerCase`, `trim` and `split(/\s+/)` are re-implemented below over the
  character list of the string, mirroring the ECMAScript behaviour that the
  source relies on (for `split(/\s+/)` this includes the empty tokens produced
  by leading and trailing whitespace).
* DOM text nodes are values of `TextNode`: a text content plus, for the
  position-based resolver, the optional top-left corner (in document
  coordinates) that `range.getBoundingClientRect()` would report for the
  node's match span, `none` modelling a range that throws when constructed or
  measured.
* The page, for the marker-lifecycle claims, is the ordered list of parent
  elements, each holding its child nodes (`PageNode`): bare text leaves and
  highlight marker spans.  `normalize()` merges adjacent text children
  within one parent only.
* Mutable caches (JS `Map`s, iterated in insertion order) are association
  lists; timestamps are naturals (milliseconds).
* JS exceptions are `Except String`; a `try`/`catch` becomes a `match` on the
  `Except` value.  JS numeric scores are rationals; `Math.sqrt` is strictly
  monotone on non-negative numbers, so selection loops that the source runs
  on square roots are modelled on squared distances, and the theorems state
  distances through `Real.sqrt` again.
-/

/-- Lowercase a string character by character, the model of
JS `String.prototype.toLowerCase` used by the context scorer
(the fragments involved are plain text). -/
def jsToLower (s : String) : String := ⟨s.data.map Char.toLower⟩

/-- Strip leading and trailing whitespace, the model of JS
`String.prototype.trim` used by the node-index filter in
`getAllTextNodes`. -/
def jsTrim (s : String) : String :=
  ⟨((s.data.dropWhile Char.isWhitespace).reverse.dropWhile Char.isWhitespace).reverse⟩

/-- Helper for `strIndexOf`: first index at or after `i` where `nee` occurs
as a prefix of the remaining haystack. -/
def firstIndexFrom : List Char → List Char → Nat → Option Nat
  | [], nee, i => if nee.isPrefixOf ([] : List Char) then some i else none
  | c :: t, nee, i =>
    if nee.isPrefixOf (c :: t) then some i else firstIndexFrom t nee (i + 1)

/-- Model of JS `String.prototype.indexOf`: `none` stands for the JS result
`-1`, `some i` for a first occurrence at character index `i`. -/
def strIndexOf (s sub : String) : Option Nat :=
  firstIndexFrom s.data sub.data 0

/-- Model of JS `String.prototype.includes`. -/
def jsIncludes (s sub : String) : Bool :=
  (strIndexOf s sub).isSome

/-- Model of JS `String.prototype.substring(a, b)` for `a ≤ b` (the only way
the source calls it). -/
def jsSubstring (s : String) (a b : Nat) : String :=
  ⟨(s.data.drop a).take (b - a)⟩

/-- Helper for `splitWhitespace`: splits a character list on runs of
whitespace.  `cur` is the (reversed) token under construction and `inRun`
records whether the previous character belonged to a whitespace run, so that
a maximal run yields a single separator. -/
def splitWSAux : List Char → List Char → Bool → List String
  | [], cur, _ => [⟨cur.reverse⟩]
  | c :: rest, cur, inRun =>
    if c.isWhitespace then
      if inRun then splitWSAux rest cur true
      else ⟨cur.reverse⟩ :: splitWSAux rest [] true
    else
      splitWSAux rest (c :: cur) false

/-- Model of JS `s.split(/\s+/)`: tokens between maximal whitespace runs,
including the empty token that a leading or trailing run produces and the
single empty token of the empty string. -/
def splitWhitespace (s : String) : List String :=
  splitWSAux s.data [] false

/-- JS truthiness of an optional string field (`undefined` and `""` are
falsy). -/
def truthyStr : Option String → Bool
  | some s => s ≠ ""
  | none => false

/-- A text-bearing leaf of the document tree.  `content` is
`node.textContent`; `pos` is the document-coordinate top-left corner that a
trial range over the node's match span reports, `none` when constructing or
measuring that range throws. -/
structure TextNode where
  content : String
  pos : Option (ℚ × ℚ) := none
deriving DecidableEq

/-- The collection loop shared by both branches of `findTextNodesOptimized`:
walk the (already filtered) leaves in order, keep those whose content
includes the search text, and stop once `maxMatches` have been found.
Generic in the leaf type via a `content` projection so that the same
definition serves bare `TextNode`s and index-tagged page leaves. -/
def collectMatches {α : Type} (content : α → String) (searchText : String) :
    List α → Nat → List α
  | [], _ => []
  | n :: rest, k =>
    match k with
    | 0 => []
    | k' + 1 =>
      if jsIncludes (content n) searchText then
        n :: collectMatches content searchText rest k'
      else
        collectMatches content searchText rest (k' + 1)

/-- Model of `getAllTextNodes` (the Node Index): every text leaf whose
trimmed content has length at least 2.  The source caches the resulting list
for 30 seconds under the sentinel key `all_text_nodes`; the cached value is
the list built by this same traversal, so the claims about candidate caps
are unaffected by the cache and the traversal itself is modelled here.  The
cache entry's lifecycle is modelled separately (`cleanupExpiredTextNodeCache`). -/
def getAllTextNodes {α : Type} (content : α → String) (body : List α) : List α :=
  body.filter (fun n => decide (2 ≤ (jsTrim (content n)).length))

/-- Model of `findTextNodesOptimized` (the Fragment Locator): for fragments
shorter than 3 characters, walk all leaves, rejecting leaves shorter than
the fragment, and stop after 10 matches; for longer fragments, scan the Node
Index leaves and stop after 5 matches. -/
def findTextNodesOptimized {α : Type} (content : α → String) (body : List α)
    (searchText : String) : List α :=
  if searchText.length < 3 then
    collectMatches content searchText
      (body.filter (fun n => decide (searchText.length ≤ (content n).length))) 10
  else
    collectMatches content searchText (getAllTextNodes content body) 5

/-- Model of `getNodeContext`: the window of up to 50 characters on each
side of the match inside the leaf's text (`Nat` subtraction realises the
`Math.max(0, textIndex - 50)` clamp). -/
def getNodeContext (node : TextNode) (textIndex textLength : Nat) : String :=
  jsSubstring node.content (textIndex - 50)
    (min node.content.length (textIndex + textLength + 50))

/-- Model of `calculateContextSimilarity`: lowercase both texts, split them
on whitespace runs, count the words of the original context (with
multiplicity) that occur among the node context's words, and divide by the
larger word count.  Both word lists are non-empty, so the denominator is
positive. -/
def calculateContextSimilarity (originalContext nodeContext : String) : ℚ :=
  let originalWords := splitWhitespace (jsToLower originalContext)
  let nodeWords := splitWhitespace (jsToLower nodeContext)
  let commonWords := (originalWords.filter (fun w => nodeWords.contains w)).length
  (commonWords : ℚ) / (max originalWords.length nodeWords.length : ℚ)

/-- The context score the source assigns to a leaf: the similarity between
the captured surrounding text and the ±50-character window around the
fragment's first occurrence in the leaf (0 when the leaf does not contain
the fragment, in which case `findNodeByContext` never consults it). -/
def nodeContextScore (surroundingText text : String) (node : TextNode) : ℚ :=
  match strIndexOf node.content text with
  | some index => calculateContextSimilarity surroundingText (getNodeContext node index text.length)
  | none => 0

/-- The `forEach` accumulation loop of `findNodeByContext`: keep the first
candidate whose score strictly exceeds the best score so far (initially 0). -/
def findNodeByContextAux (surroundingText text : String) :
    List TextNode → Option TextNode → ℚ → Option TextNode × ℚ
  | [], best, bestScore => (best, bestScore)
  | node :: rest, best, bestScore =>
    match strIndexOf node.content text with
    | some index =>
      let score := calculateContextSimilarity surroundingText
        (getNodeContext node index text.length)
      if bestScore < score then
        findNodeByContextAux surroundingText text rest (some node) score
      else
        findNodeByContextAux surroundingText text rest best bestScore
    | none => findNodeByContextAux surroundingText text rest best bestScore

/-- Model of `findNodeByContext`: the candidate with the highest context
score, first occurrence winning ties (the update is strict), falling back to
the first candidate when no score exceeds 0. -/
def findNodeByContext (surroundingText : String) (textNodes : List TextNode)
    (text : String) : Option TextNode :=
  match findNodeByContextAux surroundingText text textNodes none 0 with
  | (some n, _) => some n
  | (none, _) => textNodes.head?

/-- Squared Euclidean distance between two points of the document plane.
The source compares `Math.sqrt` of these values; the square root is
strictly monotone on non-negative numbers, so the comparisons coincide. -/
def distSq (p q : ℚ × ℚ) : ℚ :=
  (p.1 - q.1) ^ 2 + (p.2 - q.2) ^ 2

/-- The `forEach` accumulation loop of `findNodeByPosition`: the best
squared distance so far is `none` while no candidate has been measured
(modelling the `Infinity` initialisation), and a candidate whose trial
range cannot be constructed or measured (`pos = none`, the `catch` branch)
is skipped. -/
def findNodeByPositionAux (targetPosition : ℚ × ℚ) (text : String) :
    List TextNode → Option TextNode → Option ℚ → Option TextNode × Option ℚ
  | [], best, bestDistance => (best, bestDistance)
  | node :: rest, best, bestDistance =>
    match strIndexOf node.content text with
    | some _ =>
      match node.pos with
      | some p =>
        let d := distSq p targetPosition
        match bestDistance with
        | some bd =>
          if d < bd then findNodeByPositionAux targetPosition text rest (some node) (some d)
          else findNodeByPositionAux targetPosition text rest best bestDistance
        | none => findNodeByPositionAux targetPosition text rest (some node) (some d)
      | none => findNodeByPositionAux targetPosition text rest best bestDistance
    | none => findNodeByPositionAux targetPosition text rest best bestDistance

/-- Model of `findNodeByPosition`: the measurable candidate whose match-span
position is closest to the captured position, falling back to the first
candidate when none could be measured. -/
def findNodeByPosition (targetPosition : ℚ × ℚ) (textNodes : List TextNode)
    (text : String) : Option TextNode :=
  match findNodeByPositionAux targetPosition text textNodes none none with
  | (some n, _) => some n
  | (none, _) => textNodes.head?

/-- Last-resort branch of `findBestTextNode`: the first candidate containing
the text verbatim, or the first candidate overall. -/
def fallbackFirstContaining (textNodes : List TextNode) (text : String) :
    Option TextNode :=
  match textNodes.find? (fun n => jsIncludes n.content text) with
  | some n => some n
  | none => textNodes.head?

/-- A DOM node as the Range Materializer sees it: an identity (`id`, object
identity of the JS node), its position in document order (`pos`, used to
order range boundary points), its text content, and whether it still has a
parent and belongs to the current document (`attached`, the conjunction
`node.parentNode && document.contains(node)` that `isValidNode` and
`isValidRangeForMarking` test; `node.nodeType` is always truthy on a real
node). -/
structure DomNode where
  id : Nat
  pos : Nat
  content : String
  attached : Bool
deriving DecidableEq

/-- The stored range descriptor captured at selection time
(`pendingHighlight.range`): container references may have become `null`
(`none`), and the offsets are raw JS numbers. -/
structure PendingRange where
  startContainer : Option DomNode
  startOffset : Int
  endContainer : Option DomNode
  endOffset : Int
deriving DecidableEq

/-- The selection-time data of `this.pendingHighlight` that the fallback
marking pipeline consults: the selected text, the captured surrounding text
and approximate position, and the stored range descriptor. -/
structure PendingInfo where
  text : String
  surroundingText : Option String := none
  textPosition : Option (ℚ × ℚ) := none
  range : Option PendingRange := none
deriving DecidableEq

/-- Model of `findBestTextNode`: a single candidate is returned outright;
otherwise captured context text is preferred, then the captured position,
then the first candidate containing the text verbatim (or the first
overall). -/
def findBestTextNode (pending : Option PendingInfo) (textNodes : List TextNode)
    (text : String) : Option TextNode :=
  match textNodes with
  | [n] => some n
  | _ =>
    match pending with
    | some p =>
      if truthyStr p.surroundingText then
        findNodeByContext (p.surroundingText.getD "") textNodes text
      else
        match p.textPosition with
        | some target => findNodeByPosition target textNodes text
        | none => fallbackFirstContaining textNodes text
    | none => fallbackFirstContaining textNodes text

/-- Model of `markTextByContent` (State C of the materializer): run the
Fragment Locator over the page, pick the best leaf with the Anchor
Resolver, and report the leaf together with the offset of the marked
substring (`none` when no leaf was found or the chosen leaf does not
contain the text). -/
def markTextByContent (pending : Option PendingInfo) (body : List TextNode)
    (text : String) : Option (TextNode × Nat) :=
  let textNodes := findTextNodesOptimized TextNode.content body text
  if textNodes.isEmpty then none
  else
    match findBestTextNode pending textNodes text with
    | some bestNode =>
      match strIndexOf bestNode.content text with
      | some index => some (bestNode, index)
      | none => none
    | none => none

/-- Model of `isValidRangeData`: both containers non-null and both offsets
numbers that are at least 0. -/
def isValidRangeData (rd : PendingRange) : Bool :=
  rd.startContainer.isSome && rd.endContainer.isSome &&
    decide (0 ≤ rd.startOffset) && decide (0 ≤ rd.endOffset)

/-- Model of `isValidNode`: the node reference is non-null, and the node has
a parent and belongs to the current document. -/
def isValidNode : Option DomNode → Bool
  | some n => n.attached
  | none => false

/-- The additional validation of `createValidRangeFromData` for descriptors
whose endpoints are the same container: `startOffset > endOffset` is
rejected. -/
def sameContainerInverted (rd : PendingRange) : Bool :=
  match rd.startContainer, rd.endContainer with
  | some s, some e => s.id == e.id && decide (rd.endOffset < rd.startOffset)
  | _, _ => false

/-- A live DOM `Range` with both boundary points set. -/
structure LiveRange where
  startNode : DomNode
  startOffset : Nat
  endNode : DomNode
  endOffset : Nat
deriving DecidableEq

/-- Order on range boundary points `(document position of the node, offset
in the node)`. -/
def boundaryLt (a b : Nat × Nat) : Bool :=
  a.1 < b.1 || (a.1 == b.1 && a.2 < b.2)

/-- Collapse test of a live range (`range.collapsed`): both boundary points
are the same node/offset pair. -/
def liveRangeCollapsed (r : LiveRange) : Bool :=
  r.startNode.id == r.endNode.id && r.startOffset == r.endOffset

/-- Model of `createValidRangeFromData`: validate the descriptor, reject an
inverted same-container descriptor, require both endpoints attached, replay
`setStart`/`setEnd` (an offset beyond the node's length throws
`IndexSizeError`, which the surrounding `try` turns into `null`, and an end
boundary at or before the start boundary leaves the range collapsed), and
reject a collapsed result. -/
def createValidRangeFromData (rd : PendingRange) : Option LiveRange :=
  if !(isValidRangeData rd) then none
  else if sameContainerInverted rd then none
  else
    match rd.startContainer, rd.endContainer with
    | some s, some e =>
      if !(isValidNode (some s)) then none
      else if decide (s.content.length < rd.startOffset.toNat) then none
      else if !(isValidNode (some e)) then none
      else if decide (e.content.length < rd.endOffset.toNat) then none
      else if !(boundaryLt (s.pos, rd.startOffset.toNat) (e.pos, rd.endOffset.toNat)) then none
      else some ⟨s, rd.startOffset.toNat, e, rd.endOffset.toNat⟩
    | _, _ => none

/-- Model of `isValidRangeForMarking`: non-null, non-collapsed, and both
containers still attached with a parent. -/
def isValidRangeForMarking (r : LiveRange) : Bool :=
  !(liveRangeCollapsed r) && r.startNode.attached && r.endNode.attached

/-- The behaviour of the host DOM primitives on the current tree, which the
engine cannot predict: whether `range.surroundContents(span)` succeeds
(it throws when the range partially selects a non-text node), whether
`range.extractContents()` followed by `range.insertNode(span)` succeeds,
and the text that `range.toString()` reports for a range spanning several
leaves. -/
structure DomEnv where
  surroundOk : Bool
  extractOk : Bool
  crossText : String := ""
deriving DecidableEq

/-- Model of `range.toString()`: the selected substring when both boundary
points share a leaf, and the host-reported text of a multi-leaf range
otherwise. -/
def rangeToString (r : LiveRange) (env : DomEnv) : String :=
  if r.startNode.id == r.endNode.id then
    jsSubstring r.startNode.content r.startOffset r.endOffset
  else env.crossText

/-- Observable outcome of a materialization attempt. -/
inductive MarkOutcome where
  /-- State A succeeded: the stored range was wrapped in place with
  `surroundContents`. -/
  | markedInPlace (id : String)
  /-- State B succeeded: the range's contents were extracted, wrapped in the
  marker and reinserted at the original location. -/
  | markedByExtract (id : String)
  /-- State C ran: the range data was discarded and marking proceeded by raw
  text content through the locator and resolver, with the reported result. -/
  | markedByContent (result : Option (TextNode × Nat)) (id : String)
  /-- Terminal: nothing could be marked and the transient selection was
  cleared (`selection.removeAllRanges()`). -/
  | selectionCleared
  /-- Early return: no pending highlight or no stored range data. -/
  | noAction
deriving DecidableEq

/-- Model of `range.surroundContents(span)` as an exception-raising
primitive. -/
def surroundContentsE (env : DomEnv) : Except String Unit :=
  if env.surroundOk then .ok () else .error "surroundContents failed"

/-- Model of `range.extractContents()` + `range.insertNode(span)` as an
exception-raising primitive (failure leaves the tree as it was). -/
def extractInsertE (env : DomEnv) : Except String Unit :=
  if env.extractOk then .ok () else .error "extractContents failed"

/-- Model of `markRangeWithFallback` (State B with its own `catch`): validate
the range, extract its contents into the marker span and reinsert it; on any
exception fall back to content-based marking when the range still reports
text, and otherwise clear the selection. -/
def markRangeWithFallback (pending : Option PendingInfo) (body : List TextNode)
    (env : DomEnv) (r : LiveRange) (id : String) : MarkOutcome :=
  let attempt : Except String Unit :=
    if !(isValidRangeForMarking r) then .error "Range invalid for fallback marking"
    else extractInsertE env
  match attempt with
  | .ok _ => .markedByExtract id
  | .error _ =>
    let textContent := rangeToString r env
    if textContent ≠ "" then
      .markedByContent (markTextByContent pending body textContent) id
    else .selectionCleared

/-- Model of `markRangeWithSpan` (State A with its `catch`): validate the
range and wrap it in place with `surroundContents`; on any exception fall
back to `markRangeWithFallback`. -/
def markRangeWithSpan (pending : Option PendingInfo) (body : List TextNode)
    (env : DomEnv) (r : LiveRange) (id : String) : MarkOutcome :=
  let attempt : Except String Unit :=
    if !(isValidRangeForMarking r) then .error "Invalid range for marking"
    else surroundContentsE env
  match attempt with
  | .ok _ => .markedInPlace id
  | .error _ => markRangeWithFallback pending body env r id

/-- Model of `markTextAsSavedFromPending`, the materializer entry point: no
pending data is an early return; a descriptor that cannot be replayed as a
valid range falls through to content-based marking; otherwise the range is
handed to `markRangeWithSpan`.  The result is an `Except` so that an
uncaught exception would be visible as an `.error`. -/
def markTextAsSavedFromPending (pending : Option PendingInfo)
    (body : List TextNode) (env : DomEnv) (id : String) :
    Except String MarkOutcome :=
  match pending with
  | none => .ok .noAction
  | some p =>
    match p.range with
    | none => .ok .noAction
    | some rd =>
      match createValidRangeFromData rd with
      | none => .ok (.markedByContent (markTextByContent (some p) body p.text) id)
      | some r => .ok (markRangeWithSpan (some p) body env r id)

/-- A top-level node of the page as the marker lifecycle sees it: a bare
text leaf, or a highlight marker span (class `highlight-saver-saved`,
`data-highlight-id` = `id`) whose single child text node carries `s`. -/
inductive PageNode where
  | text (s : String)
  | marker (id : String) (s : String)
deriving DecidableEq

/-- A saved highlight record as the content script uses it. -/
structure Highlight where
  id : String
  text : String
  url : String
deriving DecidableEq

/-- The text a page node contributes to the tree walker: a marker span is
walked through to the child text node inside it. -/
def pageNodeText : PageNode → String
  | .text s => s
  | .marker _ s => s

/-- A page is a list of parent elements, each with its list of child nodes;
distinct parents keep their text leaves separate under `normalize()`. -/
abbrev Page := List (List PageNode)

/-- Model of `parent.normalize()` on one parent's children: adjacent text
nodes are merged. -/
def normalizeChildren : List PageNode → List PageNode
  | [] => []
  | .text a :: rest =>
    match normalizeChildren rest with
    | .text b :: rest' => .text (a ++ b) :: rest'
    | r => .text a :: r
  | n :: rest => n :: normalizeChildren rest

/-- Model of `removeExistingHighlightsBatch`: every marker element is
replaced by a text node holding its text content, and each parent that
contained a marker is normalized afterwards. -/
def removeExistingHighlightsBatch (page : Page) : Page :=
  page.map (fun parent =>
    let replaced := parent.map (fun n =>
      match n with
      | .marker _ s => PageNode.text s
      | t => t)
    if parent.any (fun n => match n with | .marker _ _ => true | _ => false) then
      normalizeChildren replaced
    else replaced)

/-- The text leaves of the page in tree-walker order, tagged with the
`(parent, child)` index of the node that holds them. -/
def pageLeaves (page : Page) : List ((Nat × Nat) × String) :=
  page.enum.flatMap (fun parent =>
    parent.2.enum.map (fun child => ((parent.1, child.1), pageNodeText child.2)))

/-- Model of `markTextInNode` applied to a text leaf with content `c`: the
leaf is replaced by the text before the match (when non-empty), a marker
span whose text is the highlight's text, and the text after the match (when
non-empty).  A leaf that does not contain the text is left as it is (the
caller checks `indexOf` first). -/
def markLeaf (c : String) (text : String) (id : String) : List PageNode :=
  match strIndexOf c text with
  | some index =>
    let before := jsSubstring c 0 index
    let after := jsSubstring c (index + text.length) c.length
    (if before ≠ "" then [PageNode.text before] else []) ++
      [PageNode.marker id text] ++
      (if after ≠ "" then [PageNode.text after] else [])
  | none => [PageNode.text c]

/-- One step of `findAndMarkTextOptimized` + `markTextInNodes` for a single
highlight on a page with an empty per-text cache: the Fragment Locator
selects candidate leaves, and every candidate leaf is split around its
match.  A candidate leaf sitting inside an existing marker span would be
split inside that span by the source; `markExistingHighlights` removes all
markers before any marking happens, so that case is kept unchanged here and
the lifecycle theorems run the pipeline on marker-free pages. -/
def applyHighlight (page : Page) (h : Highlight) : Page :=
  let cands := findTextNodesOptimized Prod.snd (pageLeaves page) h.text
  let candIdx := cands.map Prod.fst
  page.enum.map (fun parent =>
    parent.2.enum.flatMap (fun child =>
      if candIdx.contains (parent.1, child.1) then
        match child.2 with
        | .text c => markLeaf c h.text h.id
        | m => [m]
      else [child.2]))

/-- Model of `markExistingHighlights`: remove every existing marker (batch
replacement plus `normalize()`), then re-mark every stored highlight whose
URL matches the current page.  The chunked scheduler processes the
highlights in order, so the pass is a fold; the per-text cache starts empty
on each leaf of the fold. -/
def markExistingHighlights (page : Page) (savedHighlightsData : List Highlight)
    (currentUrl : String) : Page :=
  let cleaned := removeExistingHighlightsBatch page
  (savedHighlightsData.filter (fun h => h.url == currentUrl)).foldl applyHighlight cleaned

/-- Number of live marker elements on the page carrying the given highlight
identifier. -/
def countMarkersFor (page : Page) (id : String) : Nat :=
  (page.flatMap (fun parent => parent)).countP (fun n =>
    match n with
    | .marker mid _ => mid == id
    | _ => false)

/-- A marker span as `markTextInNode` creates it: the owning highlight's
identifier and text, the leaf that was split, and the offset of the match. -/
structure MarkerSpan where
  highlightId : String
  text : String
  node : TextNode
  index : Nat
deriving DecidableEq

/-- Model of the `markTextInNodes` loop at the level of the marker spans it
creates: for every node of the candidate list whose content contains the
highlight's text, `markTextInNode` is called and produces one span tagged
with the highlight's identifier. -/
def markTextInNodesSpans (textNodes : List TextNode) (h : Highlight) :
    List MarkerSpan :=
  textNodes.foldl (fun acc node =>
    match strIndexOf node.content h.text with
    | some index => acc ++ [⟨h.id, h.text, node, index⟩]
    | none => acc) []

/-- Model of JS `Map.prototype.set` on a map iterated in insertion order:
an existing key keeps its place and gets the new value, a new key is
appended. -/
def jsMapSet {β : Type} (cache : List (String × β)) (k : String) (v : β) :
    List (String × β) :=
  if cache.any (fun kv => kv.1 == k) then
    cache.map (fun kv => if kv.1 == k then (k, v) else kv)
  else cache ++ [(k, v)]

/-- First pass of `findOldestEntries`: the smallest timestamp present
(`Infinity`, i.e. `none`, on an empty store). -/
def oldestTimestamp (cache : List (String × Nat)) : Option Nat :=
  cache.foldl (fun acc kv =>
    match acc with
    | none => some kv.2
    | some o => if kv.2 < o then some kv.2 else some o) none

/-- The smallest timestamp strictly greater than `t` (`Infinity`/`none` when
there is none), the "next oldest" pass of `findOldestEntries`. -/
def nextOldestTimestamp (cache : List (String × Nat)) (t : Nat) : Option Nat :=
  cache.foldl (fun acc kv =>
    if t < kv.2 then
      match acc with
      | none => some kv.2
      | some o => if kv.2 < o then some kv.2 else some o
    else acc) none

/-- Collection pass of `findOldestEntries`: the keys of the entries whose
timestamp equals `t`, in iteration order, stopping once `count` keys are
collected. -/
def collectKeysWithTimestamp (cache : List (String × Nat)) (t : Nat)
    (count : Nat) : List String :=
  (((cache.filter (fun kv => kv.2 == t)).map Prod.fst).take count)

/-- Model of `findOldestEntries`: collect up to `count` keys sharing the
globally oldest timestamp; when fewer were found, also collect keys sharing
the next-oldest timestamp, and return at most `count` keys. -/
def findOldestEntries (cache : List (String × Nat)) (count : Nat) : List String :=
  match oldestTimestamp cache with
  | none => []
  | some o =>
    let oldestKeys := collectKeysWithTimestamp cache o count
    let oldestKeys :=
      if oldestKeys.length < count then
        match nextOldestTimestamp cache o with
        | none => oldestKeys
        | some n2 => oldestKeys ++ collectKeysWithTimestamp cache n2 (count - oldestKeys.length)
      else oldestKeys
    oldestKeys.take count

/-- Model of `limitCacheSize`: when the store exceeds its bound, delete the
keys that `findOldestEntries` returns for the surplus. -/
def limitCacheSize (cache : List (String × Nat)) (maxSize : Nat) :
    List (String × Nat) :=
  if cache.length ≤ maxSize then cache
  else
    let entriesToDelete := cache.length - maxSize
    let oldestEntries := findOldestEntries cache entriesToDelete
    cache.filter (fun kv => !(oldestEntries.contains kv.1))

/-- TTL pass of `performMemoryCleanup` over the summary cache: entries with
a (truthy) timestamp older than 5 minutes are deleted. -/
def cleanupExpiredSummaries (now : Nat) (cache : List (String × Nat)) :
    List (String × Nat) :=
  cache.filter (fun kv => !(kv.2 != 0 && decide (300000 < now - kv.2)))

/-- Model of one run of the 2-minute `performMemoryCleanup` sweep on the
summary cache (bounded at `maxSummaryCacheSize = 20`): first the TTL pass,
then the size-limiting pass. -/
def performSummaryCleanup (now : Nat) (cache : List (String × Nat)) :
    List (String × Nat) :=
  limitCacheSize (cleanupExpiredSummaries now cache) 20

/-- A value stored in `textNodeCache`: the per-`(text, pageURL)` entries
hold the raw candidate array (no timestamp field), while the single
`all_text_nodes` entry holds the node list together with its build time. -/
inductive TncValue where
  | nodes (ns : List TextNode)
  | allNodes (ns : List TextNode) (timestamp : Nat)
deriving DecidableEq

/-- TTL pass of `performMemoryCleanup` over `textNodeCache`
(`cleanupExpiredCaches`): only entries with a truthy `timestamp` property
older than 30 seconds are deleted; the per-text candidate arrays have no
such property and always survive this pass. -/
def cleanupExpiredTextNodeCache (now : Nat) (cache : List (String × TncValue)) :
    List (String × TncValue) :=
  cache.filter (fun kv =>
    match kv.2 with
    | .nodes _ => true
    | .allNodes _ ts => !(ts != 0 && decide (30000 < now - ts)))

/-- Model of `findAndMarkTextOptimized`'s lookup discipline: the cache is
probed under the key `text ++ "_" ++ url`; a present entry of candidate
nodes is used as a hit unconditionally (no timestamp is consulted) and the
cache is left unchanged; on a miss the locator scans the page and the result
is cached.  Returns the candidate nodes handed to `markTextInNodes` together
with the cache afterwards. -/
def findAndMarkTextOptimized (cache : List (String × TncValue))
    (body : List TextNode) (text : String) (url : String) :
    List TextNode × List (String × TncValue) :=
  let cacheKey := text ++ "_" ++ url
  match (cache.find? (fun kv => kv.1 == cacheKey)).map Prod.snd with
  | some (.nodes ns) => (ns, cache)
  | _ =>
    let textNodes := findTextNodesOptimized TextNode.content body text
    (textNodes, jsMapSet cache cacheKey (.nodes textNodes))

/-- Model of the `processChunk` loop of `processInChunks` (chunk size 5,
the source's default): the chunks processed synchronously, paired with the
number of times the loop yielded to the host scheduler
(`requestIdleCallback`, falling back to `setTimeout`) before completion. -/
def processChunksLoop {α : Type} : List α → List (List α) × Nat
  | [] => ([], 0)
  | a :: b :: c :: d :: e :: f :: rest =>
    let r := processChunksLoop (f :: rest)
    ([a, b, c, d, e] :: r.1, r.2 + 1)
  | items => ([items], 0)

/-- Model of `processInChunks`: an empty list returns before any chunk; the
loop runs otherwise (its first chunk is processed synchronously, so an item
list of at most 5 items never yields). -/
def processInChunks {α : Type} (items : List α) : List (List α) × Nat :=
  if items.isEmpty then ([], 0) else processChunksLoop items

/-- A highlight record as the background service receives it; `none` fields
model absent properties, and empty strings are falsy in the source's
validation. -/
structure HighlightRecord where
  id : String := ""
  text : Option String := none
  url : Option String := none
  timestamp : Option Nat := none
deriving DecidableEq

/-- Model of `BackgroundService.saveHighlight`: reject a record without
(truthy) text or URL; otherwise stamp a missing timestamp, prepend the
record to the stored list and truncate the list to 1000 entries
(`highlights.splice(1000)`).  Returns the new stored list together with the
saved record. -/
def saveHighlight (highlight : Option HighlightRecord) (now : Nat)
    (stored : List HighlightRecord) :
    Except String (List HighlightRecord × HighlightRecord) :=
  match highlight with
  | none => .error "Invalid highlight data: missing required fields"
  | some h =>
    if !(truthyStr h.text) || !(truthyStr h.url) then
      .error "Invalid highlight data: missing required fields"
    else
      let h' := if h.timestamp.isNone then { h with timestamp := some now } else h
      let highlights := h' :: stored
      let highlights := if highlights.length > 1000 then highlights.take 1000 else highlights
      .ok (highlights, h')

/-- The message-handler wrapper around `saveHighlight`: a thrown validation
or storage error is caught and answered with `success: false`, leaving the
stored list untouched. -/
def handleSaveMessage (highlight : Option HighlightRecord) (now : Nat)
    (stored : List HighlightRecord) : List HighlightRecord × Bool :=
  match saveHighlight highlight now stored with
  | .ok (l, _) => (l, true)
  | .error _ => (stored, false)

/-- Helper for the spec-side word sets: remove duplicate tokens, keeping
first occurrences (`seen` accumulates the tokens already emitted). -/
def removeDuplicateTokens (seen : List String) : List String → List String
  | [] => []
  | x :: rest =>
    if seen.contains x then removeDuplicateTokens seen rest
    else x :: removeDuplicateTokens (x :: seen) rest

/-- Modelled from the spec, for comparison with `calculateContextSimilarity`:
the similarity score the specification states, `|words(contextText) ∩
words(candidateWindow)| / max(|words(contextText)|, |words(candidateWindow)|)`
with `words` the set of lowercase whitespace tokens (set intersection and
set cardinalities, realised over duplicate-free token lists). -/
def specContextScore (contextText candidateWindow : String) : ℚ :=
  let contextWords := removeDuplicateTokens [] (splitWhitespace (jsToLower contextText))
  let windowWords := removeDuplicateTokens [] (splitWhitespace (jsToLower candidateWindow))
  let inter := (contextWords.filter (fun w => windowWords.contains w)).length
  (inter : ℚ) / (max contextWords.length windowWords.length : ℚ)

/-- Modelled from the spec, for comparison with `findNodeByContext`: return
the candidate with the highest `specContextScore` (computed on the same
±50-character window), ties broken by candidate order. -/
def specSelectByContext (contextText : String) (textNodes : List TextNode)
    (text : String) : Option TextNode :=
  let score := fun n =>
    match strIndexOf n.content text with
    | some index => specContextScore contextText (getNodeContext n index text.length)
    | none => 0
  textNodes.foldl (fun acc n =>
    match acc with
    | none => some n
    | some b => if score b < score n then some n else some b) none

/-! ### Helper lemmas -/

theorem collectMatches_length_le {α : Type} (content : α → String) (t : String) :
    ∀ (l : List α) (k : Nat), (collectMatches content t l k).length ≤ k := by
  intro l
  induction l with
  | nil => intro k; simp [collectMatches]
  | cons n rest ih =>
    intro k
    cases k with
    | zero => simp [collectMatches]
    | succ k' =>
      by_cases h : jsIncludes (content n) t
      · simpa [collectMatches, h, Nat.succ_le_succ_iff] using ih k'
      · exact le_trans (by simpa [collectMatches, h] using ih (k' + 1)) (le_refl _)

theorem collectMatches_sublist {α : Type} (content : α → String) (t : String) :
    ∀ (l : List α) (k : Nat), (collectMatches content t l k).Sublist l := by
  intro l
  induction l with
  | nil => intro k; simp [collectMatches]
  | cons n rest ih =>
    intro k
    cases k with
    | zero => simp [collectMatches]
    | succ k' =>
      by_cases h : jsIncludes (content n) t
      · simpa [collectMatches, h] using (ih k').cons₂ n
      · simpa [collectMatches, h] using (ih (k' + 1)).cons n

theorem collectMatches_mem_includes {α : Type} (content : α → String) (t : String) :
    ∀ (l : List α) (k : Nat) (x : α), x ∈ collectMatches content t l k →
      jsIncludes (content x) t = true := by
  intro l
  induction l with
  | nil => intro k x hx; simp [collectMatches] at hx
  | cons n rest ih =>
    intro k x hx
    cases k with
    | zero => simp [collectMatches] at hx
    | succ k' =>
      by_cases h : jsIncludes (content n) t
      · simp only [collectMatches, h, if_pos, List.mem_cons] at hx
        rcases hx with rfl | hx
        · exact h
        · exact ih k' x hx
      · simp only [collectMatches, h, if_neg, Bool.false_eq_true, not_false_iff] at hx
        exact ih (k' + 1) x hx

theorem findTextNodesOptimized_sublist {α : Type} (content : α → String)
    (body : List α) (t : String) :
    (findTextNodesOptimized content body t).Sublist body := by
  unfold findTextNodesOptimized
  by_cases h : t.length < 3
  · simp only [h, if_pos]
    exact (collectMatches_sublist content t _ 10).trans (List.filter_sublist body)
  · simp only [h, if_neg, not_false_iff]
    exact (collectMatches_sublist content t _ 5).trans (List.filter_sublist body)

theorem findTextNodesOptimized_mem_includes {α : Type} (content : α → String)
    (body : List α) (t : String) (x : α)
    (hx : x ∈ findTextNodesOptimized content body t) :
    jsIncludes (content x) t = true := by
  unfold findTextNodesOptimized at hx
  by_cases h : t.length < 3
  · simp only [h, if_pos] at hx
    exact collectMatches_mem_includes content t _ 10 x hx
  · simp only [h, if_neg, not_false_iff] at hx
    exact collectMatches_mem_includes content t _ 5 x hx

/-! ### Claim theorems -/

/-- C5: for every fragment shorter than 3 characters, the locator traverses
the leaves directly, skipping leaves shorter than the fragment, and returns
at most 10 candidates; for every fragment of length at least 3 it scans the
Node Index leaves for a substring match and returns at most 5 candidates.
Every returned candidate contains the fragment. -/
theorem locator_caps (body : List TextNode) (t : String) :
    (t.length < 3 →
      (findTextNodesOptimized TextNode.content body t).length ≤ 10 ∧
      ∀ n ∈ findTextNodesOptimized TextNode.content body t,
        t.length ≤ n.content.length) ∧
    (3 ≤ t.length →
      (findTextNodesOptimized TextNode.content body t).length ≤ 5 ∧
      ∀ n ∈ findTextNodesOptimized TextNode.content body t,
        2 ≤ (jsTrim n.content).length) ∧
    ∀ n ∈ findTextNodesOptimized TextNode.content body t,
      jsIncludes n.content t = true := by
  refine ⟨fun hshort => ⟨?_, ?_⟩, fun hlong => ⟨?_, ?_⟩, ?_⟩
  · unfold findTextNodesOptimized
    simp only [hshort, if_pos]
    exact collectMatches_length_le _ _ _ 10
  · intro n hn
    unfold findTextNodesOptimized at hn
    simp only [hshort, if_pos] at hn
    have := (collectMatches_sublist TextNode.content t _ 10).subset hn
    simpa using List.of_mem_filter this
  · unfold findTextNodesOptimized
    simp only [Nat.not_lt.mpr hlong, if_neg, Bool.false_eq_true, not_false_iff]
    exact collectMatches_length_le _ _ _ 5
  · intro n hn
    unfold findTextNodesOptimized at hn
    simp only [Nat.not_lt.mpr hlong, if_neg, Bool.false_eq_true, not_false_iff] at hn
    have := (collectMatches_sublist TextNode.content t _ 5).subset hn
    simpa [getAllTextNodes] using List.of_mem_filter this
  · intro n hn
    exact findTextNodesOptimized_mem_includes TextNode.content body t n hn

/-- Witness for C5 at a concrete document: 20 leaves each containing the
2-character fragment "ab" yield at most 10 (in fact exactly 10) candidates,
and 20 leaves each containing the 10-character fragment "abcdefghij" yield
at most 5 (in fact exactly 5). -/
theorem locator_caps_witness :
    ((2 : Nat) < 3 ∧
      (findTextNodesOptimized TextNode.content
        (List.replicate 20 ⟨"xaby", none⟩) "ab").length ≤ 10) ∧
    ((3 : Nat) ≤ 10 ∧
      (findTextNodesOptimized TextNode.content
        (List.replicate 20 ⟨"x abcdefghij y", none⟩) "abcdefghij").length ≤ 5) ∧
    (findTextNodesOptimized TextNode.content
      (List.replicate 20 ⟨"xaby", none⟩) "ab").length = 10 ∧
    (findTextNodesOptimized TextNode.content
      (List.replicate 20 ⟨"x abcdefghij y", none⟩) "abcdefghij").length = 5 := by
  refine ⟨⟨by decide, ?_⟩, ⟨by decide, ?_⟩, by decide, by decide⟩
  · exact ((locator_caps (List.replicate 20 ⟨"xaby", none⟩) "ab").1 (by decide)).1
  · exact (((locator_caps (List.replicate 20 ⟨"x abcdefghij y", none⟩)
      "abcdefghij").2.1 (by decide)).1)

theorem processChunksLoop_of_short {α : Type} (items : List α)
    (hne : items ≠ []) (hlen : items.length ≤ 5) :
    processChunksLoop items = ([items], 0) := by
  rcases items with _ | ⟨a, _ | ⟨b, _ | ⟨c, _ | ⟨d, _ | ⟨e, _ | ⟨f, rest⟩⟩⟩⟩⟩⟩
  · exact absurd rfl hne
  · rfl
  · rfl
  · rfl
  · rfl
  · rfl
  · simp only [List.length_cons] at hlen
    omega

/-- C7 counterexample: scheduling 23 items with chunk size 5 performs
exactly 4 yields before completion, not 5 as claimed (the first chunk is
processed synchronously, and a yield happens only between consecutive
chunks). -/
theorem chunk_yields_counterexample :
    (processInChunks (List.range 23)).2 = 4 ∧
    (processInChunks (List.range 23)).2 ≠ 5 := by
  decide

/-- C7 (amended): `processInChunks` partitions the items into chunks of at
most 5 items each, applies the processor synchronously within a chunk, and
yields to the host scheduler once between consecutive chunks, performing
`⌈n/5⌉ - 1` yields in total; for 23 items that is 5 chunks of sizes
5,5,5,5,3 and exactly 4 yields. -/
theorem processInChunks_amended {α : Type} (items : List α) :
    (processInChunks items).1.flatten = items ∧
    (∀ c ∈ (processInChunks items).1, c.length ≤ 5) ∧
    (processInChunks items).1.length = (items.length + 4) / 5 ∧
    (processInChunks items).2 = (processInChunks items).1.length - 1 := by
  have main : ∀ (l : List α), l ≠ [] →
      (processChunksLoop l).1.flatten = l ∧
      (∀ c ∈ (processChunksLoop l).1, c.length ≤ 5) ∧
      (processChunksLoop l).1.length = (l.length + 4) / 5 ∧
      (processChunksLoop l).2 = (processChunksLoop l).1.length - 1 := by
    intro l
    induction l using processChunksLoop.induct with
    | case1 => intro h; exact absurd rfl h
    | case2 a b c d e f rest ih =>
      intro _
      obtain ⟨ih1, ih2, ih3, ih4⟩ := ih (by simp)
      have hlen : 1 ≤ (processChunksLoop (f :: rest)).1.length := by
        rcases h5 : (processChunksLoop (f :: rest)).1 with _ | ⟨c0, cs⟩
        · rw [h5] at ih1; simp at ih1
        · simp
      refine ⟨?_, ?_, ?_, ?_⟩
      · simp [processChunksLoop, ih1]
      · intro ch hch
        simp only [processChunksLoop, List.mem_cons] at hch
        rcases hch with rfl | hch
        · simp
        · exact ih2 ch hch
      · simp only [processChunksLoop, List.length_cons, ih3]
        omega
      · simp only [processChunksLoop, List.length_cons, ih4]
        omega
    | case3 items h1 h2 =>
      intro hne
      have hlen : items.length ≤ 5 := by
        rcases items with _ | ⟨a, _ | ⟨b, _ | ⟨c, _ | ⟨d, _ | ⟨e, _ | ⟨f, rest⟩⟩⟩⟩⟩⟩
        · simp only [List.length_nil]; omega
        · simp only [List.length_cons, List.length_nil]; omega
        · simp only [List.length_cons, List.length_nil]; omega
        · simp only [List.length_cons, List.length_nil]; omega
        · simp only [List.length_cons, List.length_nil]; omega
        · simp only [List.length_cons, List.length_nil]; omega
        · exact absurd rfl (h2 a b c d e f rest)
      have hpos : 1 ≤ items.length := by
        rcases items with _ | ⟨a, rest⟩
        · exact absurd rfl hne
        · simp only [List.length_cons]
          omega
      rw [processChunksLoop_of_short items hne hlen]
      refine ⟨by simp, ?_, by simp; omega, by simp⟩
      intro ch hch
      simp only [List.mem_singleton] at hch
      subst hch
      exact hlen
  by_cases h : items.isEmpty
  · have : items = [] := by rwa [List.isEmpty_iff] at h
    subst this
    simp [processInChunks]
  · have hne : items ≠ [] := by
      intro hcon; subst hcon; simp at h
    simp only [processInChunks, h, if_neg, Bool.false_eq_true, not_false_iff]
    exact main items hne

/-- Witness for C7's amended theorem at 23 items: 5 chunks, none longer
than 5 items, and 4 yields. -/
theorem processInChunks_amended_witness :
    (processInChunks (List.range 23)).1.length = 5 ∧
    (∀ c ∈ (processInChunks (List.range 23)).1, c.length ≤ 5) ∧
    (processInChunks (List.range 23)).2 = 4 := by
  refine ⟨by decide, (processInChunks_amended (List.range 23)).2.1, by decide⟩

theorem createValidRangeFromData_facts (rd : PendingRange) (r : LiveRange)
    (h : createValidRangeFromData rd = some r) :
    rd.startContainer = some r.startNode ∧ rd.endContainer = some r.endNode ∧
    r.startNode.attached = true ∧ r.endNode.attached = true ∧
    isValidRangeData rd = true ∧ sameContainerInverted rd = false ∧
    boundaryLt (r.startNode.pos, r.startOffset) (r.endNode.pos, r.endOffset) = true ∧
    r.startOffset = rd.startOffset.toNat ∧ r.endOffset = rd.endOffset.toNat := by
  unfold createValidRangeFromData at h
  by_cases h1 : isValidRangeData rd
  · by_cases h2 : sameContainerInverted rd
    · simp [h1, h2] at h
    · rcases hs : rd.startContainer with _ | s
      · simp [h1, h2, hs] at h
      · rcases he : rd.endContainer with _ | e
        · simp [h1, h2, hs, he] at h
        · simp only [h1, h2, hs, he, Bool.not_true, Bool.not_false,
            Bool.false_eq_true, if_false, if_neg, not_false_iff] at h
          by_cases h3 : isValidNode (some s)
          · by_cases h4 : s.content.length < rd.startOffset.toNat
            · simp [h3, h4] at h
            · by_cases h5 : isValidNode (some e)
              · by_cases h6 : e.content.length < rd.endOffset.toNat
                · simp [h3, h4, h5, h6] at h
                · by_cases h7 : boundaryLt (s.pos, rd.startOffset.toNat)
                    (e.pos, rd.endOffset.toNat)
                  · simp only [h3, h4, h5, h6, h7, Bool.not_true, Bool.false_eq_true,
                      if_false, if_neg, not_false_iff, decide_eq_true_eq,
                      Option.some.injEq, if_true] at h
                    subst h
                    refine ⟨?_, ?_, ?_, ?_, by simpa using h1, by simpa using h2, h7, rfl, rfl⟩
                    · rfl
                    · rfl
                    · simpa [isValidNode] using h3
                    · simpa [isValidNode] using h5
                  · simp [h3, h4, h5, h6, h7] at h
              · simp [h3, h4, h5] at h
          · simp [h3] at h
  · simp [h1] at h

theorem createValidRangeFromData_valid_for_marking (rd : PendingRange)
    (r : LiveRange) (h : createValidRangeFromData rd = some r)
    (hcons : ∀ s e, rd.startContainer = some s → rd.endContainer = some e →
      s.id = e.id → s = e) :
    isValidRangeForMarking r = true := by
  obtain ⟨hs, he, hsa, hea, _, _, hble, _, _⟩ := createValidRangeFromData_facts rd r h
  have hcol : liveRangeCollapsed r = false := by
    by_contra hcol
    have hcol' : liveRangeCollapsed r = true := by
      cases hcl : liveRangeCollapsed r
      · exact absurd hcl hcol
      · rfl
    unfold liveRangeCollapsed at hcol'
    simp only [Bool.and_eq_true, beq_iff_eq] at hcol'
    obtain ⟨hid, hoff⟩ := hcol'
    have := hcons r.startNode r.endNode hs he hid
    rw [this, hoff] at hble
    unfold boundaryLt at hble
    simp at hble
  unfold isValidRangeForMarking
  rw [hcol, hsa, hea]
  rfl

/-- C9: a stored range descriptor is replayed in place only if it is still
structurally valid — both endpoints attached, the resulting range
non-collapsed, and start offset at most end offset when both endpoints are
the same leaf — and whenever range recreation returns `none`, the
materializer falls through to the content-based fallback.  The consistency
hypothesis says that two container references with the same object identity
are the same node. -/
theorem range_replay_validity :
    (∀ rd r, createValidRangeFromData rd = some r →
      (∀ s e, rd.startContainer = some s → rd.endContainer = some e →
        s.id = e.id → s = e) →
      rd.startContainer = some r.startNode ∧ rd.endContainer = some r.endNode ∧
      r.startNode.attached = true ∧ r.endNode.attached = true ∧
      liveRangeCollapsed r = false ∧
      (r.startNode.id = r.endNode.id → r.startOffset ≤ r.endOffset)) ∧
    (∀ p rd body env id, p.range = some rd → createValidRangeFromData rd = none →
      markTextAsSavedFromPending (some p) body env id =
        .ok (.markedByContent (markTextByContent (some p) body p.text) id)) := by
  constructor
  · intro rd r h hcons
    obtain ⟨hs, he, hsa, hea, hvd, hinv, hble, hso, heo⟩ :=
      createValidRangeFromData_facts rd r h
    have hmark := createValidRangeFromData_valid_for_marking rd r h hcons
    have hcol : liveRangeCollapsed r = false := by
      unfold isValidRangeForMarking at hmark
      cases hc : liveRangeCollapsed r
      · rfl
      · rw [hc] at hmark; simp at hmark
    refine ⟨hs, he, hsa, hea, hcol, ?_⟩
    intro hid
    have heq := hcons r.startNode r.endNode hs he hid
    have hinv' : (r.startNode.id == r.endNode.id &&
        decide (rd.endOffset < rd.startOffset)) = false := by
      unfold sameContainerInverted at hinv
      rw [hs, he] at hinv
      exact hinv
    rw [hid] at hinv'
    have : ¬ rd.endOffset < rd.startOffset := by
      intro hlt
      simp [hlt] at hinv' 
    have hle : rd.startOffset ≤ rd.endOffset := le_of_not_lt this
    rw [hso, heo]
    exact Int.toNat_le_toNat hle
  · intro p rd body env id hrange hnone
    simp only [markTextAsSavedFromPending, hrange, hnone]

/-- Witness for C9: a same-leaf descriptor over the attached node
`"hello ab"` with offsets 2 ≤ 4 is replayed (and indeed satisfies the
validity facts), while a collapsed descriptor (offsets 2 = 2) makes range
recreation fail and the materializer fall through to content-based marking. -/
theorem range_replay_validity_witness :
    (createValidRangeFromData
        ⟨some ⟨1, 0, "hello ab", true⟩, 2, some ⟨1, 0, "hello ab", true⟩, 4⟩ =
      some ⟨⟨1, 0, "hello ab", true⟩, 2, ⟨1, 0, "hello ab", true⟩, 4⟩) ∧
    liveRangeCollapsed ⟨⟨1, 0, "hello ab", true⟩, 2, ⟨1, 0, "hello ab", true⟩, 4⟩ = false ∧
    markTextAsSavedFromPending
        (some { text := "ab",
                range := some ⟨some ⟨1, 0, "hello ab", true⟩, 2,
                  some ⟨1, 0, "hello ab", true⟩, 2⟩ })
        [⟨"xx ab yy", none⟩] ⟨true, true, ""⟩ "id1" =
      .ok (.markedByContent (markTextByContent
        (some { text := "ab",
                range := some ⟨some ⟨1, 0, "hello ab", true⟩, 2,
                  some ⟨1, 0, "hello ab", true⟩, 2⟩ })
        [⟨"xx ab yy", none⟩] "ab") "id1") := by
  refine ⟨by decide, ?_, ?_⟩
  · exact ((range_replay_validity.1
      ⟨some ⟨1, 0, "hello ab", true⟩, 2, some ⟨1, 0, "hello ab", true⟩, 4⟩
      ⟨⟨1, 0, "hello ab", true⟩, 2, ⟨1, 0, "hello ab", true⟩, 4⟩ (by decide)
      (by intro s e hs he _; cases hs; cases he; rfl)).2.2.2.2.1)
  · exact range_replay_validity.2
      { text := "ab",
        range := some ⟨some ⟨1, 0, "hello ab", true⟩, 2,
          some ⟨1, 0, "hello ab", true⟩, 2⟩ }
      ⟨some ⟨1, 0, "hello ab", true⟩, 2, some ⟨1, 0, "hello ab", true⟩, 2⟩
      [⟨"xx ab yy", none⟩] ⟨true, true, ""⟩ "id1" rfl (by decide)

/-- C2 (amended): the materializer never lets an exception escape, and
follows the ordered fallback chain: with a replayable stored range it first
tries the surround-contents primitive (State A); if that throws it extracts
the range's contents and reinserts them wrapped in the marker (State B); if
that also throws it discards the range data and, when the range still
reports text, re-marks by raw text content through the locator and resolver
(State C), while a range reporting no text has the transient selection
cleared instead.  When State C itself finds no leaf, the materializer
returns silently: no marker is created, the selection is not cleared, and
no failure is reported to the caller.  A descriptor that cannot be replayed
at all goes directly to State C. -/
theorem materialize_fallback_chain :
    (∀ pending body env id, ∃ o,
      markTextAsSavedFromPending pending body env id = .ok o) ∧
    (∀ p rd r body env id,
      p.range = some rd → createValidRangeFromData rd = some r →
      (∀ s e, rd.startContainer = some s → rd.endContainer = some e →
        s.id = e.id → s = e) →
      (env.surroundOk = true →
        markTextAsSavedFromPending (some p) body env id = .ok (.markedInPlace id)) ∧
      (env.surroundOk = false → env.extractOk = true →
        markTextAsSavedFromPending (some p) body env id = .ok (.markedByExtract id)) ∧
      (env.surroundOk = false → env.extractOk = false → rangeToString r env ≠ "" →
        markTextAsSavedFromPending (some p) body env id =
          .ok (.markedByContent (markTextByContent (some p) body (rangeToString r env)) id)) ∧
      (env.surroundOk = false → env.extractOk = false → rangeToString r env = "" →
        markTextAsSavedFromPending (some p) body env id = .ok .selectionCleared) ∧
      (env.surroundOk = false → env.extractOk = false → rangeToString r env ≠ "" →
        markTextByContent (some p) body (rangeToString r env) = none →
        markTextAsSavedFromPending (some p) body env id =
          .ok (.markedByContent none id))) ∧
    (∀ p rd body env id, p.range = some rd → createValidRangeFromData rd = none →
      markTextAsSavedFromPending (some p) body env id =
        .ok (.markedByContent (markTextByContent (some p) body p.text) id)) := by
  refine ⟨?_, ?_, ?_⟩
  · intro pending body env id
    rcases pending with _ | p
    · exact ⟨.noAction, rfl⟩
    · rcases hr : p.range with _ | rd
      · exact ⟨.noAction, by simp [markTextAsSavedFromPending, hr]⟩
      · rcases hc : createValidRangeFromData rd with _ | r
        · exact ⟨.markedByContent (markTextByContent (some p) body p.text) id,
            by simp [markTextAsSavedFromPending, hr, hc]⟩
        · exact ⟨markRangeWithSpan (some p) body env r id,
            by simp [markTextAsSavedFromPending, hr, hc]⟩
  · intro p rd r body env id hrange hsome hcons
    have hmark := createValidRangeFromData_valid_for_marking rd r hsome hcons
    have hentry : markTextAsSavedFromPending (some p) body env id =
        .ok (markRangeWithSpan (some p) body env r id) := by
      simp only [markTextAsSavedFromPending, hrange, hsome]
    refine ⟨?_, ?_, ?_, ?_, ?_⟩
    · intro hsOk
      rw [hentry]
      simp [markRangeWithSpan, hmark, surroundContentsE, hsOk]
    · intro hsNo heOk
      rw [hentry]
      simp [markRangeWithSpan, markRangeWithFallback, hmark, surroundContentsE,
        extractInsertE, hsNo, heOk]
    · intro hsNo heNo htext
      rw [hentry]
      simp [markRangeWithSpan, markRangeWithFallback, hmark, surroundContentsE,
        extractInsertE, hsNo, heNo, htext]
    · intro hsNo heNo htext
      rw [hentry]
      simp [markRangeWithSpan, markRangeWithFallback, hmark, surroundContentsE,
        extractInsertE, hsNo, heNo, htext]
    · intro hsNo heNo htext hnone
      rw [hentry]
      simp [markRangeWithSpan, markRangeWithFallback, hmark, surroundContentsE,
        extractInsertE, hsNo, heNo, htext, hnone]
  · intro p rd body env id hrange hnone
    simp only [markTextAsSavedFromPending, hrange, hnone]

/-- C2 counterexample: the claim's terminal clause fails on the code.  On
the attached same-leaf range over `"hello ab"` with offsets 2 and 4, a host
where both `surroundContents` and the extract/insert fallback throw reaches
State C with the range's text `"ll"`; the page contains no leaf with that
text, so State C fails terminally — yet the outcome is a silent
`markedByContent none` return, not the claimed clearing of the transient
selection (`markTextByContent` returns without clearing anything and
without surfacing a failure). -/
theorem materialize_terminal_counterexample :
    markTextAsSavedFromPending
        (some { text := "ab",
                range := some ⟨some ⟨1, 0, "hello ab", true⟩, 2,
                  some ⟨1, 0, "hello ab", true⟩, 4⟩ })
        [⟨"xx ab yy", none⟩] ⟨false, false, ""⟩ "id1" =
      .ok (.markedByContent none "id1") ∧
    rangeToString ⟨⟨1, 0, "hello ab", true⟩, 2, ⟨1, 0, "hello ab", true⟩, 4⟩
        ⟨false, false, ""⟩ = "ll" ∧
    markTextByContent
        (some { text := "ab",
                range := some ⟨some ⟨1, 0, "hello ab", true⟩, 2,
                  some ⟨1, 0, "hello ab", true⟩, 4⟩ })
        [⟨"xx ab yy", none⟩] "ll" = none ∧
    MarkOutcome.markedByContent none "id1" ≠ MarkOutcome.selectionCleared := by
  refine ⟨rfl, rfl, rfl, by decide⟩

/-- Witness for C2's amended theorem: on the attached same-leaf range over `"hello ab"` with
offsets 2 and 4, a host where both `surroundContents` and the
extract/insert fallback throw makes the materializer re-mark by the range's
raw text content (here `"ll"`, which the page does not contain, so State C
reports no leaf), and no exception escapes. -/
theorem materialize_fallback_chain_witness :
    markTextAsSavedFromPending
        (some { text := "ab",
                range := some ⟨some ⟨1, 0, "hello ab", true⟩, 2,
                  some ⟨1, 0, "hello ab", true⟩, 4⟩ })
        [⟨"xx ab yy", none⟩] ⟨false, false, ""⟩ "id1" =
      .ok (.markedByContent (markTextByContent
        (some { text := "ab",
                range := some ⟨some ⟨1, 0, "hello ab", true⟩, 2,
                  some ⟨1, 0, "hello ab", true⟩, 4⟩ })
        [⟨"xx ab yy", none⟩] "ll") "id1") := by
  have h := (materialize_fallback_chain.2.1
    { text := "ab",
      range := some ⟨some ⟨1, 0, "hello ab", true⟩, 2,
        some ⟨1, 0, "hello ab", true⟩, 4⟩ }
    ⟨some ⟨1, 0, "hello ab", true⟩, 2, some ⟨1, 0, "hello ab", true⟩, 4⟩
    ⟨⟨1, 0, "hello ab", true⟩, 2, ⟨1, 0, "hello ab", true⟩, 4⟩
    [⟨"xx ab yy", none⟩] ⟨false, false, ""⟩ "id1" rfl (by decide)
    (by intro s e hs he _; cases hs; cases he; rfl)).2.2.1
  have := h rfl rfl (by decide)
  simpa using this

/-- C10: the background save prepends every new record to the stored list
and truncates to 1000 entries, so after every successful save the persisted
list has length at most 1000 (exactly `min (previous + 1) 1000`) and its
first element is the saved record; a record missing its text or URL is
rejected with an error and the stored list is left unchanged. -/
theorem saveHighlight_spec (hr : HighlightRecord) (now : Nat)
    (stored : List HighlightRecord) :
    (truthyStr hr.text = true → truthyStr hr.url = true →
      (handleSaveMessage (some hr) now stored).2 = true ∧
      (handleSaveMessage (some hr) now stored).1.length = min (stored.length + 1) 1000 ∧
      (handleSaveMessage (some hr) now stored).1.length ≤ 1000 ∧
      ∃ hr', (handleSaveMessage (some hr) now stored).1.head? = some hr' ∧
        hr'.text = hr.text ∧ hr'.url = hr.url ∧ hr'.id = hr.id) ∧
    (truthyStr hr.text = false ∨ truthyStr hr.url = false →
      (∃ msg, saveHighlight (some hr) now stored = .error msg) ∧
      handleSaveMessage (some hr) now stored = (stored, false)) ∧
    handleSaveMessage none now stored = (stored, false) := by
  refine ⟨fun htext hurl => ?_, fun hbad => ?_, rfl⟩
  · have hcond : (!(truthyStr hr.text) || !(truthyStr hr.url)) = false := by
      rw [htext, hurl]; rfl
    set hr' : HighlightRecord :=
      (if hr.timestamp.isNone then { hr with timestamp := some now } else hr) with hhr'
    have hfields : hr'.text = hr.text ∧ hr'.url = hr.url ∧ hr'.id = hr.id := by
      by_cases ht : hr.timestamp.isNone <;> simp [hhr', ht]
    have hsave : saveHighlight (some hr) now stored =
        .ok ((if (hr' :: stored).length > 1000 then (hr' :: stored).take 1000
              else hr' :: stored), hr') := by
      simp only [saveHighlight, hcond, Bool.false_eq_true, if_neg, not_false_iff]
    have hhandle : handleSaveMessage (some hr) now stored =
        ((if (hr' :: stored).length > 1000 then (hr' :: stored).take 1000
          else hr' :: stored), true) := by
      simp only [handleSaveMessage, hsave]
    rw [hhandle]
    by_cases hbig : (hr' :: stored).length > 1000
    · rw [if_pos hbig]
      refine ⟨rfl, ?_, ?_, hr', ?_, hfields⟩
      · show ((hr' :: stored).take 1000).length = _
        simp only [List.length_take, List.length_cons] at hbig ⊢
        omega
      · show ((hr' :: stored).take 1000).length ≤ 1000
        simp only [List.length_take, List.length_cons]
        omega
      · show ((hr' :: stored).take 1000).head? = some hr'
        rw [show (1000 : Nat) = 999 + 1 from rfl, List.take_succ_cons]
        rfl
    · rw [if_neg hbig]
      refine ⟨rfl, ?_, ?_, hr', rfl, hfields⟩
      · show (hr' :: stored).length = _
        simp only [List.length_cons] at hbig ⊢
        omega
      · show (hr' :: stored).length ≤ 1000
        simp only [List.length_cons] at hbig ⊢
        omega
  · have hcond : (!(truthyStr hr.text) || !(truthyStr hr.url)) = true := by
      rcases hbad with hb | hb <;> rw [hb] <;> simp
    have hsave : saveHighlight (some hr) now stored =
        .error "Invalid highlight data: missing required fields" := by
      simp only [saveHighlight, hcond, if_pos]
    exact ⟨⟨_, hsave⟩, by simp only [handleSaveMessage, hsave]⟩

/-- Witness for C10: saving a valid record onto a two-record store puts it
first with the list grown to three, and a record with an empty text is
rejected leaving the store unchanged. -/
theorem saveHighlight_spec_witness :
    (handleSaveMessage (some { id := "n", text := some "t", url := some "u" }) 7
        [{ id := "a" }, { id := "b" }]).2 = true ∧
    (handleSaveMessage (some { id := "n", text := some "t", url := some "u" }) 7
        [{ id := "a" }, { id := "b" }]).1.length = min (2 + 1) 1000 ∧
    handleSaveMessage (some { id := "n", text := some "", url := some "u" }) 7
        [{ id := "a" }, { id := "b" }] = ([{ id := "a" }, { id := "b" }], false) := by
  refine ⟨?_, ?_, ?_⟩
  · exact ((saveHighlight_spec { id := "n", text := some "t", url := some "u" } 7
      [{ id := "a" }, { id := "b" }]).1 (by decide) (by decide)).1
  · exact ((saveHighlight_spec { id := "n", text := some "t", url := some "u" } 7
      [{ id := "a" }, { id := "b" }]).1 (by decide) (by decide)).2.1
  · exact ((saveHighlight_spec { id := "n", text := some "", url := some "u" } 7
      [{ id := "a" }, { id := "b" }]).2.1 (Or.inl (by decide))).2

/-- C8 counterexample: a per-`(text, pageURL)` cache entry carries no
timestamp, so it is not subject to any 30-second validity window: the entry
written for `("ab", "u")` at time 0 survives the TTL pass run at 40000 ms
(40 s later) and is still returned as a hit, skipping the scan of the
current page — whose fresh scan would return a different candidate list. -/
theorem cache_hit_ttl_counterexample :
    findAndMarkTextOptimized [] [⟨"old ab page", none⟩] "ab" "u" =
      ([⟨"old ab page", none⟩], [("ab_u", .nodes [⟨"old ab page", none⟩])]) ∧
    cleanupExpiredTextNodeCache 40000 [("ab_u", .nodes [⟨"old ab page", none⟩])] =
      [("ab_u", .nodes [⟨"old ab page", none⟩])] ∧
    (30000 : Nat) < 40000 - 0 ∧
    findAndMarkTextOptimized [("ab_u", .nodes [⟨"old ab page", none⟩])]
        [⟨"new ab page", none⟩] "ab" "u" =
      ([⟨"old ab page", none⟩], [("ab_u", .nodes [⟨"old ab page", none⟩])]) ∧
    findTextNodesOptimized TextNode.content [⟨"new ab page", none⟩] "ab" =
      [⟨"new ab page", none⟩] ∧
    ([(⟨"old ab page", none⟩ : TextNode)] ≠ [(⟨"new ab page", none⟩ : TextNode)]) := by
  decide

/-- C8 (amended): every `findAndMarkTextOptimized` call first checks a cache
entry keyed by `text ++ "_" ++ pageURL`; a present entry is returned
unchanged as a hit and the scan is skipped, with no age check at all — the
per-text entries carry no timestamp, so the 30-second validity window (which
governs only the `all_text_nodes` index entry) never invalidates them and
they survive every TTL sweep until evicted by the size-limiting pass.  On a
miss the locator scans the page and the result is cached under the same
key. -/
theorem findAndMarkText_cache_amended (cache : List (String × TncValue))
    (body : List TextNode) (text url : String) :
    (∀ ns, (cache.find? (fun kv => kv.1 == text ++ "_" ++ url)).map Prod.snd =
        some (.nodes ns) →
      findAndMarkTextOptimized cache body text url = (ns, cache)) ∧
    (cache.find? (fun kv => kv.1 == text ++ "_" ++ url) = none →
      findAndMarkTextOptimized cache body text url =
        (findTextNodesOptimized TextNode.content body text,
         jsMapSet cache (text ++ "_" ++ url)
           (.nodes (findTextNodesOptimized TextNode.content body text)))) ∧
    (∀ now k ns, (k, TncValue.nodes ns) ∈ cache →
      (k, TncValue.nodes ns) ∈ cleanupExpiredTextNodeCache now cache) := by
  refine ⟨?_, ?_, ?_⟩
  · intro ns hfind
    simp only [findAndMarkTextOptimized, hfind]
  · intro hfind
    simp only [findAndMarkTextOptimized, hfind]
    rfl
  · intro now k ns hmem
    unfold cleanupExpiredTextNodeCache
    exact List.mem_filter.mpr ⟨hmem, rfl⟩

/-- Witness for C8's amended theorem: a concrete hit returns the cached list
with the cache untouched, and the hit entry survives a TTL sweep far past
30 seconds. -/
theorem findAndMarkText_cache_amended_witness :
    findAndMarkTextOptimized [("ab_u", .nodes [⟨"cached", none⟩])]
        [⟨"page ab", none⟩] "ab" "u" =
      ([⟨"cached", none⟩], [("ab_u", .nodes [⟨"cached", none⟩])]) ∧
    ("ab_u", TncValue.nodes [⟨"cached", none⟩]) ∈
      cleanupExpiredTextNodeCache 1000000 [("ab_u", .nodes [⟨"cached", none⟩])] := by
  constructor
  · exact (findAndMarkText_cache_amended [("ab_u", .nodes [⟨"cached", none⟩])]
      [⟨"page ab", none⟩] "ab" "u").1 [⟨"cached", none⟩] (by decide)
  · exact (findAndMarkText_cache_amended [("ab_u", .nodes [⟨"cached", none⟩])]
      [⟨"page ab", none⟩] "ab" "u").2.2 1000000 "ab_u" [⟨"cached", none⟩]
      (List.mem_singleton.mpr rfl)

/-- Test of a page node being a marker element. -/
def isMarkerNode : PageNode → Bool
  | .marker _ _ => true
  | .text _ => false

theorem normalizeChildren_no_marker (l : List PageNode)
    (h : ∀ n ∈ l, isMarkerNode n = false) :
    ∀ n ∈ normalizeChildren l, isMarkerNode n = false := by
  induction l with
  | nil => intro n hn; simp [normalizeChildren] at hn
  | cons n0 rest ih =>
    intro n hn
    have hrest := ih (fun m hm => h m (List.mem_cons_of_mem _ hm))
    cases n0 with
    | text a =>
      simp only [normalizeChildren] at hn
      rcases hm : normalizeChildren rest with _ | ⟨b0, rest'⟩
      · rw [hm] at hn
        simp only [List.mem_singleton] at hn
        subst hn
        rfl
      · cases b0 with
        | text b =>
          rw [hm] at hn
          simp only [List.mem_cons] at hn
          rcases hn with rfl | hn
          · rfl
          · exact hrest n (by rw [hm]; exact List.mem_cons_of_mem _ hn)
        | marker mid s =>
          rw [hm] at hn
          simp only [List.mem_cons] at hn
          rcases hn with rfl | hn
          · rfl
          · exact hrest n (by rw [hm]; exact List.mem_cons.mpr hn)
    | marker mid s =>
      have := h _ (List.mem_cons_self _ _)
      simp [isMarkerNode] at this

theorem markTextInNodesSpans_aux (h : Highlight) :
    ∀ (l : List TextNode) (acc : List MarkerSpan),
      (l.foldl (fun acc node =>
        match strIndexOf node.content h.text with
        | some index => acc ++ [⟨h.id, h.text, node, index⟩]
        | none => acc) acc).length =
        acc.length + l.countP (fun n => jsIncludes n.content h.text) ∧
      ∀ s ∈ l.foldl (fun acc node =>
        match strIndexOf node.content h.text with
        | some index => acc ++ [⟨h.id, h.text, node, index⟩]
        | none => acc) acc, s ∈ acc ∨ s.highlightId = h.id := by
  intro l
  induction l with
  | nil =>
    intro acc
    exact ⟨by simp, fun s hs => Or.inl hs⟩
  | cons n rest ih =>
    intro acc
    rcases hidx : strIndexOf n.content h.text with _ | index
    · have hinc : jsIncludes n.content h.text = false := by
        simp [jsIncludes, hidx]
      constructor
      · simp only [List.foldl_cons, hidx, List.countP_cons, hinc]
        simpa using (ih acc).1
      · intro s hs
        simp only [List.foldl_cons, hidx] at hs
        exact (ih acc).2 s hs
    · have hinc : jsIncludes n.content h.text = true := by
        simp [jsIncludes, hidx]
      constructor
      · have hrw := (ih (acc ++
          [{ highlightId := h.id, text := h.text, node := n, index := index }])).1
        simp only [List.foldl_cons, hidx, List.countP_cons, hinc]
        rw [hrw]
        simp only [List.length_append, List.length_singleton, if_true]
        omega
      · intro s hs
        simp only [List.foldl_cons, hidx] at hs
        rcases (ih (acc ++ [⟨h.id, h.text, n, index⟩])).2 s hs with hmem | hid
        · rcases List.mem_append.mp hmem with hmem | hmem
          · exact Or.inl hmem
          · simp only [List.mem_singleton] at hmem
            subst hmem
            exact Or.inr rfl
        · exact Or.inr hid

/-- C1 counterexample: a page whose fragment text `"alpha beta"` occurs in
two distinct text leaves (in two parent elements) ends up with two live
marker elements tagged with the same fragment identifier after one
re-rendering pass, violating "at most one live marker per fragment
identifier". -/
theorem marker_uniqueness_counterexample :
    countMarkersFor (markExistingHighlights
        [[.text "xx alpha beta yy"], [.text "zz alpha beta ww"]]
        [⟨"h1", "alpha beta", "u"⟩] "u") "h1" = 2 ∧
    ¬ countMarkersFor (markExistingHighlights
        [[.text "xx alpha beta yy"], [.text "zz alpha beta ww"]]
        [⟨"h1", "alpha beta", "u"⟩] "u") "h1" ≤ 1 := by
  decide

/-- C1 (amended): re-rendering removes every prior marker for the page
before creating new ones, but `markTextInNodes` then creates one marker per
candidate leaf containing the fragment's text (the candidate list being
bounded by the locator caps), so several live markers can carry the same
fragment identifier when the text occurs in more than one candidate leaf;
exactly one marker is created precisely when exactly one candidate leaf
contains the text. -/
theorem marker_uniqueness_amended :
    (∀ (page : Page) (id : String),
      countMarkersFor (removeExistingHighlightsBatch page) id = 0) ∧
    (∀ (textNodes : List TextNode) (h : Highlight),
      (markTextInNodesSpans textNodes h).length =
        textNodes.countP (fun n => jsIncludes n.content h.text) ∧
      ∀ s ∈ markTextInNodesSpans textNodes h, s.highlightId = h.id) ∧
    (∀ (textNodes : List TextNode) (h : Highlight),
      textNodes.countP (fun n => jsIncludes n.content h.text) = 1 →
      (markTextInNodesSpans textNodes h).length = 1) := by
  refine ⟨?_, ?_, ?_⟩
  · intro page id
    unfold countMarkersFor
    rw [List.countP_eq_zero]
    intro n hn
    rcases List.mem_flatMap.mp hn with ⟨parent, hparent, hnp⟩
    unfold removeExistingHighlightsBatch at hparent
    rcases List.mem_map.mp hparent with ⟨orig, _, horig⟩
    have hreplaced : ∀ m ∈ orig.map (fun n => match n with
        | PageNode.marker _ s => PageNode.text s
        | t => t), isMarkerNode m = false := by
      intro m hm
      rcases List.mem_map.mp hm with ⟨m0, _, hm0⟩
      cases m0 <;> simp at hm0 <;> subst hm0 <;> rfl
    have hnomark : isMarkerNode n = false := by
      by_cases hhas : orig.any (fun n => match n with
        | PageNode.marker _ _ => true
        | _ => false)
      · rw [← horig] at hnp
        simp only [hhas, if_pos] at hnp
        exact normalizeChildren_no_marker _ hreplaced n hnp
      · rw [← horig] at hnp
        simp only [hhas, if_neg, Bool.false_eq_true, not_false_iff] at hnp
        exact hreplaced n hnp
    cases n with
    | text s => simp
    | marker mid s => simp [isMarkerNode] at hnomark
  · intro textNodes h
    have := markTextInNodesSpans_aux h textNodes []
    unfold markTextInNodesSpans
    refine ⟨by simpa using this.1, fun s hs => ?_⟩
    rcases this.2 s hs with hmem | hid
    · simp at hmem
    · exact hid
  · intro textNodes h hone
    have := (markTextInNodesSpans_aux h textNodes []).1
    unfold markTextInNodesSpans
    simpa [hone] using this

/-- Witness for C1's amended theorem: on the two-leaf counterexample
document the span count equals the number of containing leaves (two), and
with a single containing leaf exactly one span is created. -/
theorem marker_uniqueness_amended_witness :
    countMarkersFor (removeExistingHighlightsBatch
        [[.text "a", .marker "h1" "b"], [.marker "h2" "c"]]) "h1" = 0 ∧
    (markTextInNodesSpans [⟨"xx alpha beta yy", none⟩, ⟨"zz alpha beta ww", none⟩]
        ⟨"h1", "alpha beta", "u"⟩).length = 2 ∧
    (markTextInNodesSpans [⟨"xx alpha beta yy", none⟩, ⟨"qq rr", none⟩]
        ⟨"h1", "alpha beta", "u"⟩).length = 1 := by
  refine ⟨marker_uniqueness_amended.1 [[.text "a", .marker "h1" "b"], [.marker "h2" "c"]] "h1",
    ?_, marker_uniqueness_amended.2.2
      [⟨"xx alpha beta yy", none⟩, ⟨"qq rr", none⟩] ⟨"h1", "alpha beta", "u"⟩ (by decide)⟩
  rw [(marker_uniqueness_amended.2.1
    [⟨"xx alpha beta yy", none⟩, ⟨"zz alpha beta ww", none⟩] ⟨"h1", "alpha beta", "u"⟩).1]
  decide

theorem foldlMin_spec :
    ∀ (l : List (String × Nat)) (acc : Option Nat) (x : Nat),
      l.foldl (fun acc kv =>
        match acc with
        | none => some kv.2
        | some o => if kv.2 < o then some kv.2 else some o) acc = some x →
      (∀ kv ∈ l, x ≤ kv.2) ∧ (acc = some x ∨ ∃ kv ∈ l, kv.2 = x) ∧
      (∀ a, acc = some a → x ≤ a) := by
  intro l
  induction l with
  | nil =>
    intro acc x hx
    simp only [List.foldl_nil] at hx
    exact ⟨by simp, Or.inl hx, fun a ha => by rw [hx] at ha; injection ha with h; omega⟩
  | cons kv l ih =>
    intro acc x hx
    simp only [List.foldl_cons] at hx
    obtain ⟨ih1, ih2, ih3⟩ := ih _ x hx
    have hstep : ∀ a, (match acc with
        | none => some kv.2
        | some o => if kv.2 < o then some kv.2 else some o) = some a →
        a ≤ kv.2 ∧ (acc = some a ∨ a = kv.2) ∧ ∀ b, acc = some b → a ≤ b := by
      intro a ha
      rcases acc with _ | o
      · simp only at ha
        injection ha with ha
        exact ⟨le_of_eq ha.symm, Or.inr ha.symm, fun b hb => by cases hb⟩
      · simp only at ha
        by_cases hlt : kv.2 < o
        · rw [if_pos hlt] at ha
          injection ha with ha
          exact ⟨le_of_eq ha.symm, Or.inr ha.symm,
            fun b hb => by injection hb with hb; omega⟩
        · rw [if_neg hlt] at ha
          injection ha with ha
          exact ⟨by omega, Or.inl (by rw [ha]), fun b hb => by injection hb with hb; omega⟩
    have hacc' : ∃ a, (match acc with
        | none => some kv.2
        | some o => if kv.2 < o then some kv.2 else some o) = some a := by
      rcases acc with _ | o
      · exact ⟨kv.2, rfl⟩
      · by_cases hlt : kv.2 < o
        · exact ⟨kv.2, by simp [hlt]⟩
        · exact ⟨o, by simp [hlt]⟩
    obtain ⟨a, ha⟩ := hacc'
    obtain ⟨ha1, ha2, ha3⟩ := hstep a ha
    have hxa : x ≤ a := ih3 a ha
    refine ⟨?_, ?_, ?_⟩
    · intro m hm
      rcases List.mem_cons.mp hm with rfl | hm
      · omega
      · exact ih1 m hm
    · rcases ih2 with heq | ⟨m, hm, hms⟩
      · rw [ha] at heq
        injection heq with heq
        subst heq
        rcases ha2 with hacc | hkv
        · exact Or.inl hacc
        · exact Or.inr ⟨kv, List.mem_cons_self _ _, hkv.symm⟩
      · exact Or.inr ⟨m, List.mem_cons_of_mem _ hm, hms⟩
    · intro b hb
      have := ha3 b hb
      omega

theorem foldlNext_spec (t : Nat) :
    ∀ (l : List (String × Nat)) (acc : Option Nat) (x : Nat),
      l.foldl (fun acc kv =>
        if t < kv.2 then
          match acc with
          | none => some kv.2
          | some o => if kv.2 < o then some kv.2 else some o
        else acc) acc = some x →
      (∀ kv ∈ l, t < kv.2 → x ≤ kv.2) ∧
      (acc = some x ∨ ∃ kv ∈ l, kv.2 = x ∧ t < kv.2) ∧
      (∀ a, acc = some a → x ≤ a) := by
  intro l
  induction l with
  | nil =>
    intro acc x hx
    simp only [List.foldl_nil] at hx
    exact ⟨by simp, Or.inl hx, fun a ha => by rw [hx] at ha; injection ha with h; omega⟩
  | cons kv l ih =>
    intro acc x hx
    simp only [List.foldl_cons] at hx
    by_cases ht : t < kv.2
    · rw [if_pos ht] at hx
      obtain ⟨ih1, ih2, ih3⟩ := ih _ x hx
      have hstep : ∀ a, (match acc with
          | none => some kv.2
          | some o => if kv.2 < o then some kv.2 else some o) = some a →
          a ≤ kv.2 ∧ (acc = some a ∨ a = kv.2) ∧ ∀ b, acc = some b → a ≤ b := by
        intro a ha
        rcases acc with _ | o
        · simp only at ha
          injection ha with ha
          exact ⟨le_of_eq ha.symm, Or.inr ha.symm, fun b hb => by cases hb⟩
        · simp only at ha
          by_cases hlt : kv.2 < o
          · rw [if_pos hlt] at ha
            injection ha with ha
            exact ⟨le_of_eq ha.symm, Or.inr ha.symm,
              fun b hb => by injection hb with hb; omega⟩
          · rw [if_neg hlt] at ha
            injection ha with ha
            exact ⟨by omega, Or.inl (by rw [ha]), fun b hb => by injection hb with hb; omega⟩
      have hacc' : ∃ a, (match acc with
          | none => some kv.2
          | some o => if kv.2 < o then some kv.2 else some o) = some a := by
        rcases acc with _ | o
        · exact ⟨kv.2, rfl⟩
        · by_cases hlt : kv.2 < o
          · exact ⟨kv.2, by simp [hlt]⟩
          · exact ⟨o, by simp [hlt]⟩
      obtain ⟨a, ha⟩ := hacc'
      obtain ⟨ha1, ha2, ha3⟩ := hstep a ha
      have hxa : x ≤ a := ih3 a ha
      refine ⟨?_, ?_, ?_⟩
      · intro m hm _
        rcases List.mem_cons.mp hm with rfl | hm
        · omega
        · by_cases htm : t < m.2
          · exact ih1 m hm htm
          · omega
      · rcases ih2 with heq | ⟨m, hm, hms, hmt⟩
        · rw [ha] at heq
          injection heq with heq
          subst heq
          rcases ha2 with hacc | hkv
          · exact Or.inl hacc
          · exact Or.inr ⟨kv, List.mem_cons_self _ _, hkv.symm, ht⟩
        · exact Or.inr ⟨m, List.mem_cons_of_mem _ hm, hms, hmt⟩
      · intro b hb
        have := ha3 b hb
        omega
    · rw [if_neg ht] at hx
      obtain ⟨ih1, ih2, ih3⟩ := ih _ x hx
      refine ⟨?_, ?_, ih3⟩
      · intro m hm htm
        rcases List.mem_cons.mp hm with rfl | hm
        · omega
        · exact ih1 m hm htm
      · rcases ih2 with heq | ⟨m, hm, hms, hmt⟩
        · exact Or.inl heq
        · exact Or.inr ⟨m, List.mem_cons_of_mem _ hm, hms, hmt⟩

theorem foldlNext_none (t : Nat) :
    ∀ (l : List (String × Nat)) (acc : Option Nat),
      l.foldl (fun acc kv =>
        if t < kv.2 then
          match acc with
          | none => some kv.2
          | some o => if kv.2 < o then some kv.2 else some o
        else acc) acc = none →
      acc = none ∧ ∀ kv ∈ l, ¬ t < kv.2 := by
  intro l
  induction l with
  | nil =>
    intro acc h
    simpa using h
  | cons kv l ih =>
    intro acc h
    simp only [List.foldl_cons] at h
    by_cases ht : t < kv.2
    · rw [if_pos ht] at h
      obtain ⟨hacc, _⟩ := ih _ h
      exfalso
      rcases acc with _ | o
      · simp at hacc
      · by_cases hlt : kv.2 < o <;> simp [hlt] at hacc
    · rw [if_neg ht] at h
      obtain ⟨hacc, hall⟩ := ih _ h
      refine ⟨hacc, ?_⟩
      intro m hm
      rcases List.mem_cons.mp hm with rfl | hm
      · exact ht
      · exact hall m hm

theorem key_determines (cache : List (String × Nat))
    (hnodup : (cache.map Prod.fst).Nodup) (k : String) (a b : Nat)
    (ha : (k, a) ∈ cache) (hb : (k, b) ∈ cache) : a = b := by
  induction cache with
  | nil => simp at ha
  | cons kv rest ih =>
    simp only [List.map_cons, List.nodup_cons] at hnodup
    rcases List.mem_cons.mp ha with ha' | ha' <;>
      rcases List.mem_cons.mp hb with hb' | hb'
    · rw [← ha'] at hb'
      injection hb' with _ h2
      exact h2.symm
    · exfalso
      rw [← ha'] at hnodup
      exact hnodup.1 (List.mem_map.mpr ⟨(k, b), hb', rfl⟩)
    · exfalso
      rw [← hb'] at hnodup
      exact hnodup.1 (List.mem_map.mpr ⟨(k, a), ha', rfl⟩)
    · exact ih hnodup.2 ha' hb'

theorem map_fst_filter_contains (cache : List (String × Nat)) (K : List String) :
    (cache.filter (fun kv => K.contains kv.1)).map Prod.fst =
      (cache.map Prod.fst).filter (fun k => K.contains k) := by
  induction cache with
  | nil => rfl
  | cons kv rest ih =>
    by_cases hk : K.contains kv.1
    · simp only [List.filter_cons, hk, if_pos, List.map_cons]
      rw [ih]
    · simp only [List.filter_cons, hk, List.map_cons, Bool.false_eq_true, if_neg,
        not_false_iff]
      rw [ih]

theorem length_filter_contains (cache : List (String × Nat)) (K : List String)
    (hnodupC : (cache.map Prod.fst).Nodup) (hnodupK : K.Nodup)
    (hsub : ∀ k ∈ K, k ∈ cache.map Prod.fst) :
    (cache.filter (fun kv => K.contains kv.1)).length = K.length := by
  have hlen1 : (cache.filter (fun kv => K.contains kv.1)).length =
      ((cache.map Prod.fst).filter (fun k => K.contains k)).length := by
    rw [← map_fst_filter_contains, List.length_map]
  rw [hlen1]
  have hnodupF : ((cache.map Prod.fst).filter (fun k => K.contains k)).Nodup :=
    hnodupC.filter _
  have hfin : ((cache.map Prod.fst).filter (fun k => K.contains k)).toFinset =
      K.toFinset := by
    ext x
    simp only [List.mem_toFinset, List.mem_filter, List.elem_iff]
    constructor
    · rintro ⟨_, hx⟩
      exact hx
    · intro hx
      exact ⟨hsub x hx, hx⟩
  have := List.toFinset_card_of_nodup hnodupF
  rw [hfin] at this
  rw [← this, List.toFinset_card_of_nodup hnodupK]

theorem collectKeys_sub (cache : List (String × Nat)) (t : Nat) (count : Nat) :
    ∀ k ∈ collectKeysWithTimestamp cache t count,
      ∃ kv ∈ cache, kv.1 = k ∧ kv.2 = t := by
  intro k hk
  unfold collectKeysWithTimestamp at hk
  have hk' := List.take_subset _ _ hk
  rcases List.mem_map.mp hk' with ⟨kv, hkv, rfl⟩
  have := List.mem_filter.mp hkv
  exact ⟨kv, this.1, rfl, by simpa using this.2⟩

theorem collectKeys_nodup (cache : List (String × Nat)) (t : Nat) (count : Nat)
    (hnodup : (cache.map Prod.fst).Nodup) :
    (collectKeysWithTimestamp cache t count).Nodup := by
  unfold collectKeysWithTimestamp
  have h1 : ((cache.filter (fun kv => kv.2 == t)).map Prod.fst).Sublist
      (cache.map Prod.fst) :=
    List.Sublist.map Prod.fst (List.filter_sublist cache)
  exact List.Nodup.sublist (List.take_sublist _ _) (List.Nodup.sublist h1 hnodup)

theorem collectKeys_length (cache : List (String × Nat)) (t : Nat) (count : Nat) :
    (collectKeysWithTimestamp cache t count).length =
      min count (cache.filter (fun kv => kv.2 == t)).length := by
  unfold collectKeysWithTimestamp
  rw [List.length_take, List.length_map]

theorem collectKeys_complete (cache : List (String × Nat)) (t : Nat) (count : Nat)
    (kv : String × Nat) (hkv : kv ∈ cache) (ht : kv.2 = t)
    (hcount : (cache.filter (fun kv => kv.2 == t)).length ≤ count) :
    kv.1 ∈ collectKeysWithTimestamp cache t count := by
  unfold collectKeysWithTimestamp
  rw [List.take_of_length_le (by rw [List.length_map]; exact hcount)]
  exact List.mem_map.mpr ⟨kv, List.mem_filter.mpr ⟨hkv, by simp [ht]⟩, rfl⟩

theorem findOldestEntries_spec (cache : List (String × Nat)) (needed o : Nat)
    (hnodup : (cache.map Prod.fst).Nodup)
    (ho : oldestTimestamp cache = some o)
    (hcover : needed ≤ (cache.filter (fun kv => kv.2 == o)).length +
      (match nextOldestTimestamp cache o with
       | some n2 => (cache.filter (fun kv => kv.2 == n2)).length
       | none => 0))
    (hforce : needed ≤ cache.length) :
    (findOldestEntries cache needed).Nodup ∧
    (findOldestEntries cache needed).length = needed ∧
    (∀ k ∈ findOldestEntries cache needed, ∃ kv ∈ cache, kv.1 = k) ∧
    (∀ kv ∈ cache, kv.1 ∈ findOldestEntries cache needed →
      ∀ kv' ∈ cache, kv'.1 ∉ findOldestEntries cache needed → kv.2 ≤ kv'.2) := by
  have homin : ∀ kv ∈ cache, o ≤ kv.2 :=
    (foldlMin_spec cache none o ho).1
  have hK1len : (collectKeysWithTimestamp cache o needed).length =
      min needed (cache.filter (fun kv => kv.2 == o)).length :=
    collectKeys_length cache o needed
  have hKK : findOldestEntries cache needed =
      (if (collectKeysWithTimestamp cache o needed).length < needed then
        match nextOldestTimestamp cache o with
        | none => collectKeysWithTimestamp cache o needed
        | some n2 => collectKeysWithTimestamp cache o needed ++
            collectKeysWithTimestamp cache n2
              (needed - (collectKeysWithTimestamp cache o needed).length)
       else collectKeysWithTimestamp cache o needed).take needed := by
    simp only [findOldestEntries, ho]
  by_cases hbranch : (collectKeysWithTimestamp cache o needed).length < needed
  · -- the oldest group alone is too small
    have hg1len : (cache.filter (fun kv => kv.2 == o)).length < needed := by
      rw [hK1len] at hbranch
      omega
    have hK1all : (collectKeysWithTimestamp cache o needed).length =
        (cache.filter (fun kv => kv.2 == o)).length := by
      rw [hK1len]; omega
    rcases hnext : nextOldestTimestamp cache o with _ | n2
    · -- no strictly newer timestamp exists: every entry has timestamp o,
      -- so the whole cache is the oldest group, contradicting the branch
      exfalso
      have hall := (foldlNext_none o cache none hnext).2
      have : cache.filter (fun kv => kv.2 == o) = cache := by
        apply List.filter_eq_self.mpr
        intro kv hkv
        have h1 := homin kv hkv
        have h2 := hall kv hkv
        simp only [beq_iff_eq]
        omega
      rw [this] at hg1len
      omega
    · obtain ⟨hn2min, hn2mem, _⟩ := foldlNext_spec o cache none n2 hnext
      have hon2 : o < n2 := by
        rcases hn2mem with h | ⟨kv, hkv, hts, hto⟩
        · cases h
        · omega
      have hcover' : needed ≤ (cache.filter (fun kv => kv.2 == o)).length +
          (cache.filter (fun kv => kv.2 == n2)).length := by
        rw [hnext] at hcover
        exact hcover
      have hg2cover : needed - (cache.filter (fun kv => kv.2 == o)).length ≤
          (cache.filter (fun kv => kv.2 == n2)).length := by
        omega
      have hK2len : (collectKeysWithTimestamp cache n2
          (needed - (collectKeysWithTimestamp cache o needed).length)).length =
          needed - (collectKeysWithTimestamp cache o needed).length := by
        rw [collectKeys_length, hK1all]
        omega
      have happlen : ((collectKeysWithTimestamp cache o needed) ++
          collectKeysWithTimestamp cache n2
            (needed - (collectKeysWithTimestamp cache o needed).length)).length =
          needed := by
        rw [List.length_append, hK2len]
        omega
      have hdisj : ∀ k, k ∈ collectKeysWithTimestamp cache o needed →
          k ∈ collectKeysWithTimestamp cache n2
            (needed - (collectKeysWithTimestamp cache o needed).length) → False := by
        intro k h1 h2
        obtain ⟨kv1, hkv1, hk1, ht1⟩ := collectKeys_sub cache o needed k h1
        obtain ⟨kv2, hkv2, hk2, ht2⟩ := collectKeys_sub cache n2 _ k h2
        have : kv1.2 = kv2.2 := by
          have := key_determines cache hnodup k kv1.2 kv2.2
            (by rw [← hk1]; exact hkv1) (by rw [← hk2]; exact hkv2)
          exact this
        omega
      have hKKeq : findOldestEntries cache needed =
          (collectKeysWithTimestamp cache o needed) ++
            collectKeysWithTimestamp cache n2
              (needed - (collectKeysWithTimestamp cache o needed).length) := by
        rw [hKK, if_pos hbranch, hnext]
        exact List.take_of_length_le (le_of_eq happlen)
      rw [hKKeq]
      refine ⟨?_, happlen, ?_, ?_⟩
      · rw [List.nodup_append]
        exact ⟨collectKeys_nodup cache o needed hnodup,
          collectKeys_nodup cache n2 _ hnodup,
          fun k hk1 hk2 => hdisj k hk1 hk2⟩
      · intro k hk
        rcases List.mem_append.mp hk with hk | hk
        · obtain ⟨kv, hkv, hk, _⟩ := collectKeys_sub cache o needed k hk
          exact ⟨kv, hkv, hk⟩
        · obtain ⟨kv, hkv, hk, _⟩ := collectKeys_sub cache n2 _ k hk
          exact ⟨kv, hkv, hk⟩
      · intro kv hkv hkmem kv' hkv' hkmem'
        have hkv'o : kv'.2 ≠ o := by
          intro heq
          apply hkmem'
          apply List.mem_append_left
          have : (cache.filter (fun kv => kv.2 == o)).length ≤ needed := by omega
          exact collectKeys_complete cache o needed kv' hkv' heq this
        have hkv'n2 : n2 ≤ kv'.2 := by
          have h1 := homin kv' hkv'
          have : o < kv'.2 := by omega
          exact hn2min kv' hkv' this
        rcases List.mem_append.mp hkmem with hk | hk
        · obtain ⟨kv0, hkv0, hkeq, hts⟩ := collectKeys_sub cache o needed kv.1 hk
          have : kv0.2 = kv.2 := by
            apply key_determines cache hnodup kv.1 kv0.2 kv.2
            · rw [← hkeq]; exact hkv0
            · exact hkv
          have hkvts : kv.2 = o := by omega
          have := homin kv' hkv'
          omega
        · obtain ⟨kv0, hkv0, hkeq, hts⟩ := collectKeys_sub cache n2 _ kv.1 hk
          have : kv0.2 = kv.2 := by
            apply key_determines cache hnodup kv.1 kv0.2 kv.2
            · rw [← hkeq]; exact hkv0
            · exact hkv
          have hkvts : kv.2 = n2 := by omega
          omega
  · -- the oldest group alone covers the surplus
    have hKKeq : findOldestEntries cache needed =
        collectKeysWithTimestamp cache o needed := by
      rw [hKK, if_neg hbranch]
      apply List.take_of_length_le
      omega
    have hlen : (collectKeysWithTimestamp cache o needed).length = needed := by
      rw [hK1len]
      rw [hK1len] at hbranch
      omega
    rw [hKKeq]
    refine ⟨collectKeys_nodup cache o needed hnodup, hlen, ?_, ?_⟩
    · intro k hk
      obtain ⟨kv, hkv, hkeq, _⟩ := collectKeys_sub cache o needed k hk
      exact ⟨kv, hkv, hkeq⟩
    · intro kv hkv hkmem kv' hkv' _
      obtain ⟨kv0, hkv0, hkeq, hts⟩ := collectKeys_sub cache o needed kv.1 hkmem
      have : kv0.2 = kv.2 := by
        apply key_determines cache hnodup kv.1 kv0.2 kv.2
        · rw [← hkeq]; exact hkv0
        · exact hkv
      have := homin kv' hkv'
      omega

/-- C6 counterexample: cache writes do not evict (25 writes to the bounded
store leave 25 entries until the sweep), and one 2-minute sweep of a
25-entry store bounded at 20 whose timestamps are pairwise distinct removes
only the 2 entries of the two oldest timestamp groups, leaving 23 entries —
more than the bound of 20 — instead of evicting the 5 oldest. -/
theorem cache_eviction_counterexample :
    ([("k00", 900001), ("k01", 900002), ("k02", 900003), ("k03", 900004), ("k04", 900005), ("k05", 900006), ("k06", 900007), ("k07", 900008), ("k08", 900009), ("k09", 900010), ("k10", 900011), ("k11", 900012), ("k12", 900013), ("k13", 900014), ("k14", 900015), ("k15", 900016), ("k16", 900017), ("k17", 900018), ("k18", 900019), ("k19", 900020), ("k20", 900021), ("k21", 900022), ("k22", 900023), ("k23", 900024), ("k24", 900025)].foldl
        (fun c kv => jsMapSet c kv.1 kv.2) ([] : List (String × Nat))).length = 25 ∧
    ¬ ([("k00", 900001), ("k01", 900002), ("k02", 900003), ("k03", 900004), ("k04", 900005), ("k05", 900006), ("k06", 900007), ("k07", 900008), ("k08", 900009), ("k09", 900010), ("k10", 900011), ("k11", 900012), ("k12", 900013), ("k13", 900014), ("k14", 900015), ("k15", 900016), ("k16", 900017), ("k17", 900018), ("k18", 900019), ("k19", 900020), ("k20", 900021), ("k21", 900022), ("k22", 900023), ("k23", 900024), ("k24", 900025)].foldl
        (fun c kv => jsMapSet c kv.1 kv.2) ([] : List (String × Nat))).length ≤ 20 ∧
    (performSummaryCleanup 1000000 [("k00", 900001), ("k01", 900002), ("k02", 900003), ("k03", 900004), ("k04", 900005), ("k05", 900006), ("k06", 900007), ("k07", 900008), ("k08", 900009), ("k09", 900010), ("k10", 900011), ("k11", 900012), ("k12", 900013), ("k13", 900014), ("k14", 900015), ("k15", 900016), ("k16", 900017), ("k17", 900018), ("k18", 900019), ("k19", 900020), ("k20", 900021), ("k21", 900022), ("k22", 900023), ("k23", 900024), ("k24", 900025)]).length = 23 ∧
    ¬ (performSummaryCleanup 1000000 [("k00", 900001), ("k01", 900002), ("k02", 900003), ("k03", 900004), ("k04", 900005), ("k05", 900006), ("k06", 900007), ("k07", 900008), ("k08", 900009), ("k09", 900010), ("k10", 900011), ("k11", 900012), ("k12", 900013), ("k13", 900014), ("k14", 900015), ("k15", 900016), ("k16", 900017), ("k17", 900018), ("k18", 900019), ("k19", 900020), ("k20", 900021), ("k21", 900022), ("k22", 900023), ("k23", 900024), ("k24", 900025)]).length ≤ 20 := by
  decide

/-- C6 (amended): the summary store is bounded at 20 entries but writes do
not evict, so after 25 writes the store holds 25 entries until the next
2-minute sweep; the sweep first removes entries past their validity window
and then deletes `size - bound` keys drawn from the entries with the
globally oldest timestamp and, if those do not suffice, from the entries
with the second-oldest timestamp (ties collected in a single pass, in
iteration order).  Whenever those two groups cover the surplus — in
particular when the 5 surplus entries all carry the oldest timestamps — the
sweep brings the store to exactly its bound and every evicted entry is no
newer than every surviving one; with three or more distinct old timestamps
a single sweep can leave the store above its bound. -/
theorem cache_eviction_amended (cache : List (String × Nat)) (bound o : Nat)
    (hnodup : (cache.map Prod.fst).Nodup)
    (hover : bound < cache.length)
    (ho : oldestTimestamp cache = some o)
    (hcover : cache.length - bound ≤ (cache.filter (fun kv => kv.2 == o)).length +
      (match nextOldestTimestamp cache o with
       | some n2 => (cache.filter (fun kv => kv.2 == n2)).length
       | none => 0)) :
    (limitCacheSize cache bound).length = bound ∧
    (limitCacheSize cache bound).Sublist cache ∧
    (∀ kv ∈ cache, kv ∉ limitCacheSize cache bound →
      ∀ kv' ∈ limitCacheSize cache bound, kv.2 ≤ kv'.2) ∧
    (∀ (c : List (String × Nat)) (k : String) (v : Nat),
      (c.map Prod.fst).contains k = false →
      (jsMapSet c k v).length = c.length + 1) := by
  have hforce : cache.length - bound ≤ cache.length := by omega
  obtain ⟨hKnodup, hKlen, hKsub, hKord⟩ :=
    findOldestEntries_spec cache (cache.length - bound) o hnodup ho hcover hforce
  have hres : limitCacheSize cache bound =
      cache.filter (fun kv =>
        !((findOldestEntries cache (cache.length - bound)).contains kv.1)) := by
    unfold limitCacheSize
    rw [if_neg (by omega)]
  have hremlen : (cache.filter (fun kv =>
      (findOldestEntries cache (cache.length - bound)).contains kv.1)).length =
      cache.length - bound := by
    rw [length_filter_contains cache _ hnodup hKnodup, hKlen]
    intro k hk
    obtain ⟨kv, hkv, hkeq⟩ := hKsub k hk
    exact List.mem_map.mpr ⟨kv, hkv, hkeq⟩
  have hsplit := (List.length_eq_length_filter_add
    (l := cache) (fun kv =>
      (findOldestEntries cache (cache.length - bound)).contains kv.1))
  refine ⟨?_, ?_, ?_, ?_⟩
  · rw [hres]
    omega
  · rw [hres]
    exact List.filter_sublist cache
  · intro kv hkv hkout kv' hkv'
    rw [hres] at hkout hkv'
    have hkin : kv.1 ∈ findOldestEntries cache (cache.length - bound) := by
      by_contra hnotin
      apply hkout
      apply List.mem_filter.mpr
      refine ⟨hkv, ?_⟩
      simp only [Bool.not_eq_true', ← Bool.not_eq_true, List.elem_iff]
      simpa [List.elem_iff] using hnotin
    have hkv'mem := List.mem_filter.mp hkv'
    have hkv'out : kv'.1 ∉ findOldestEntries cache (cache.length - bound) := by
      have := hkv'mem.2
      simpa [List.elem_iff] using this
    exact hKord kv hkv hkin kv' hkv'mem.1 hkv'out
  · intro c k v hcont
    have hany : c.any (fun kv => kv.1 == k) = false := by
      by_contra hany
      have hany' : c.any (fun kv => kv.1 == k) = true := by
        cases h : c.any (fun kv => kv.1 == k)
        · exact absurd h hany
        · rfl
      rcases List.any_eq_true.mp hany' with ⟨kv, hkv, hbeq⟩
      have hk : k ∈ c.map Prod.fst :=
        List.mem_map.mpr ⟨kv, hkv, beq_iff_eq.mp hbeq⟩
      have hk' : (c.map Prod.fst).contains k = true := List.elem_iff.mpr hk
      rw [hcont] at hk'
      cases hk' 
    simp only [jsMapSet, hany, Bool.false_eq_true, if_neg, not_false_iff,
      List.length_append, List.length_singleton]

/-- Witness for C6's amended theorem: a 25-entry store whose 5 oldest
entries share timestamp 100 (the other 20 share 200) is brought to exactly
20 entries by one sweep, with the 5 oldest evicted. -/
theorem cache_eviction_amended_witness :
    (limitCacheSize [("a0", 100), ("a1", 100), ("a2", 100), ("a3", 100), ("a4", 100), ("b00", 200), ("b01", 200), ("b02", 200), ("b03", 200), ("b04", 200), ("b05", 200), ("b06", 200), ("b07", 200), ("b08", 200), ("b09", 200), ("b10", 200), ("b11", 200), ("b12", 200), ("b13", 200), ("b14", 200), ("b15", 200), ("b16", 200), ("b17", 200), ("b18", 200), ("b19", 200)] 20).length = 20 ∧
    (limitCacheSize [("a0", 100), ("a1", 100), ("a2", 100), ("a3", 100), ("a4", 100), ("b00", 200), ("b01", 200), ("b02", 200), ("b03", 200), ("b04", 200), ("b05", 200), ("b06", 200), ("b07", 200), ("b08", 200), ("b09", 200), ("b10", 200), ("b11", 200), ("b12", 200), ("b13", 200), ("b14", 200), ("b15", 200), ("b16", 200), ("b17", 200), ("b18", 200), ("b19", 200)] 20).Sublist [("a0", 100), ("a1", 100), ("a2", 100), ("a3", 100), ("a4", 100), ("b00", 200), ("b01", 200), ("b02", 200), ("b03", 200), ("b04", 200), ("b05", 200), ("b06", 200), ("b07", 200), ("b08", 200), ("b09", 200), ("b10", 200), ("b11", 200), ("b12", 200), ("b13", 200), ("b14", 200), ("b15", 200), ("b16", 200), ("b17", 200), ("b18", 200), ("b19", 200)] := by
  have h := cache_eviction_amended [("a0", 100), ("a1", 100), ("a2", 100), ("a3", 100), ("a4", 100), ("b00", 200), ("b01", 200), ("b02", 200), ("b03", 200), ("b04", 200), ("b05", 200), ("b06", 200), ("b07", 200), ("b08", 200), ("b09", 200), ("b10", 200), ("b11", 200), ("b12", 200), ("b13", 200), ("b14", 200), ("b15", 200), ("b16", 200), ("b17", 200), ("b18", 200), ("b19", 200)] 20 100
    (by decide) (by decide) (by decide) (by decide)
  exact ⟨h.1, h.2.1⟩

theorem findNodeByPositionAux_spec (target : ℚ × ℚ) (text : String) :
    ∀ (l : List TextNode) (best : Option TextNode) (bd : Option ℚ),
      ((findNodeByPositionAux target text l best bd).1 = best ∧
        (findNodeByPositionAux target text l best bd).2 = bd) ∨
      (∃ n ∈ l, (findNodeByPositionAux target text l best bd).1 = some n ∧
        jsIncludes n.content text = true ∧ ∃ p, n.pos = some p ∧
        (findNodeByPositionAux target text l best bd).2 = some (distSq p target)) := by
  intro l
  induction l with
  | nil =>
    intro best bd
    exact Or.inl ⟨rfl, rfl⟩
  | cons node rest ih =>
    intro best bd
    rcases hidx : strIndexOf node.content text with _ | i
    · rcases ih best bd with h | ⟨n, hn, h⟩
      · exact Or.inl (by simpa [findNodeByPositionAux, hidx] using h)
      · exact Or.inr ⟨n, List.mem_cons_of_mem _ hn,
          by simpa [findNodeByPositionAux, hidx] using h⟩
    · rcases hpos : node.pos with _ | p
      · rcases ih best bd with h | ⟨n, hn, h⟩
        · exact Or.inl (by simpa [findNodeByPositionAux, hidx, hpos] using h)
        · exact Or.inr ⟨n, List.mem_cons_of_mem _ hn,
            by simpa [findNodeByPositionAux, hidx, hpos] using h⟩
      · rcases hbd : bd with _ | b
        · rcases ih (some node) (some (distSq p target)) with h | ⟨n, hn, h⟩
          · refine Or.inr ⟨node, List.mem_cons_self _ _, ?_⟩
            have hinc : jsIncludes node.content text = true := by
              simp [jsIncludes, hidx]
            exact ⟨by simpa [findNodeByPositionAux, hidx, hpos] using h.1, hinc,
              p, hpos, by simpa [findNodeByPositionAux, hidx, hpos] using h.2⟩
          · exact Or.inr ⟨n, List.mem_cons_of_mem _ hn,
              by simpa [findNodeByPositionAux, hidx, hpos] using h⟩
        · by_cases hlt : distSq p target < b
          · rcases ih (some node) (some (distSq p target)) with h | ⟨n, hn, h⟩
            · refine Or.inr ⟨node, List.mem_cons_self _ _, ?_⟩
              have hinc : jsIncludes node.content text = true := by
                simp [jsIncludes, hidx]
              exact ⟨by simpa [findNodeByPositionAux, hidx, hpos, hlt] using h.1, hinc,
                p, hpos, by simpa [findNodeByPositionAux, hidx, hpos, hlt] using h.2⟩
            · exact Or.inr ⟨n, List.mem_cons_of_mem _ hn,
                by simpa [findNodeByPositionAux, hidx, hpos, hlt] using h⟩
          · rcases ih best (some b) with h | ⟨n, hn, h⟩
            · exact Or.inl (by simpa [findNodeByPositionAux, hidx, hpos, hlt, hbd] using h)
            · exact Or.inr ⟨n, List.mem_cons_of_mem _ hn,
                by simpa [findNodeByPositionAux, hidx, hpos, hlt, hbd] using h⟩

theorem findNodeByPositionAux_min (target : ℚ × ℚ) (text : String) :
    ∀ (l : List TextNode) (best : Option TextNode) (bd : Option ℚ),
      (∀ m ∈ l, jsIncludes m.content text = true → ∀ q, m.pos = some q →
        ∃ d, (findNodeByPositionAux target text l best bd).2 = some d ∧
          d ≤ distSq q target) ∧
      (∀ d0, bd = some d0 →
        ∃ d, (findNodeByPositionAux target text l best bd).2 = some d ∧ d ≤ d0) := by
  intro l
  induction l with
  | nil =>
    intro best bd
    exact ⟨by simp, fun d0 h => ⟨d0, by simpa [findNodeByPositionAux] using h, le_refl _⟩⟩
  | cons node rest ih =>
    intro best bd
    rcases hidx : strIndexOf node.content text with _ | i
    · refine ⟨?_, ?_⟩
      · intro m hm hinc q hq
        rcases List.mem_cons.mp hm with rfl | hm
        · rw [jsIncludes, hidx] at hinc
          simp at hinc
        · simpa [findNodeByPositionAux, hidx] using (ih best bd).1 m hm hinc q hq
      · intro d0 h
        simpa [findNodeByPositionAux, hidx] using (ih best bd).2 d0 h
    · rcases hpos : node.pos with _ | p
      · refine ⟨?_, ?_⟩
        · intro m hm hinc q hq
          rcases List.mem_cons.mp hm with rfl | hm
          · rw [hpos] at hq
            cases hq
          · simpa [findNodeByPositionAux, hidx, hpos] using
              (ih best bd).1 m hm hinc q hq
        · intro d0 h
          simpa [findNodeByPositionAux, hidx, hpos] using (ih best bd).2 d0 h
      · rcases hbd : bd with _ | b
        · refine ⟨?_, ?_⟩
          · intro m hm hinc q hq
            rcases List.mem_cons.mp hm with rfl | hm
            · obtain ⟨d, hd, hdle⟩ := (ih (some m) (some (distSq p target))).2
                (distSq p target) rfl
              rw [hpos] at hq
              injection hq with hq
              subst hq
              exact ⟨d, by simpa [findNodeByPositionAux, hidx, hpos] using hd, hdle⟩
            · obtain ⟨d, hd, hdle⟩ :=
                (ih (some node) (some (distSq p target))).1 m hm hinc q hq
              exact ⟨d, by simpa [findNodeByPositionAux, hidx, hpos] using hd, hdle⟩
          · intro d0 h
            cases h
        · by_cases hlt : distSq p target < b
          · refine ⟨?_, ?_⟩
            · intro m hm hinc q hq
              rcases List.mem_cons.mp hm with rfl | hm
              · obtain ⟨d, hd, hdle⟩ := (ih (some m) (some (distSq p target))).2
                  (distSq p target) rfl
                rw [hpos] at hq
                injection hq with hq
                subst hq
                exact ⟨d, by simpa [findNodeByPositionAux, hidx, hpos, hlt] using hd, hdle⟩
              · obtain ⟨d, hd, hdle⟩ :=
                  (ih (some node) (some (distSq p target))).1 m hm hinc q hq
                exact ⟨d, by simpa [findNodeByPositionAux, hidx, hpos, hlt] using hd, hdle⟩
            · intro d0 h
              injection h with h
              subst h
              obtain ⟨d, hd, hdle⟩ := (ih (some node) (some (distSq p target))).2
                (distSq p target) rfl
              refine ⟨d, by simpa [findNodeByPositionAux, hidx, hpos, hlt] using hd, ?_⟩
              exact le_trans hdle (le_of_lt hlt)
          · refine ⟨?_, ?_⟩
            · intro m hm hinc q hq
              rcases List.mem_cons.mp hm with rfl | hm
              · obtain ⟨d, hd, hdle⟩ := (ih best (some b)).2 b rfl
                rw [hpos] at hq
                injection hq with hq
                subst hq
                refine ⟨d, by simpa [findNodeByPositionAux, hidx, hpos, hlt] using hd, ?_⟩
                exact le_trans hdle (le_of_not_lt hlt)
              · obtain ⟨d, hd, hdle⟩ := (ih best (some b)).1 m hm hinc q hq
                exact ⟨d, by simpa [findNodeByPositionAux, hidx, hpos, hlt] using hd, hdle⟩
            · intro d0 h
              injection h with h
              subst h
              obtain ⟨d, hd, hdle⟩ := (ih best (some b)).2 b rfl
              exact ⟨d, by simpa [findNodeByPositionAux, hidx, hpos, hlt] using hd, hdle⟩

/-- C4: with no context text but an approximate position, the resolver
measures each candidate's trial range and returns a candidate at minimum
Euclidean distance (in document coordinates, between top-left corners) from
the stored position; candidates whose trial range cannot be constructed or
measured are skipped rather than treated as distance 0.  Concretely, two
candidates at distances 10px and 500px resolve to the 10px one in either
order, and an unmeasurable candidate loses to a measurable one at 500px. -/
theorem position_resolver :
    (∀ (target : ℚ × ℚ) (nodes : List TextNode) (text : String),
      (∃ m ∈ nodes, jsIncludes m.content text = true ∧ ∃ q, m.pos = some q) →
      ∃ n ∈ nodes, findNodeByPosition target nodes text = some n ∧
        jsIncludes n.content text = true ∧
        ∃ p, n.pos = some p ∧
          ∀ m ∈ nodes, jsIncludes m.content text = true → ∀ q, m.pos = some q →
            Real.sqrt ((distSq p target : ℚ) : ℝ) ≤
              Real.sqrt ((distSq q target : ℚ) : ℝ)) ∧
    findNodeByPosition (0, 0) [⟨"ab", some (10, 0)⟩, ⟨"ab", some (500, 0)⟩] "ab" =
      some ⟨"ab", some (10, 0)⟩ ∧
    findNodeByPosition (0, 0) [⟨"ab", some (500, 0)⟩, ⟨"ab", some (10, 0)⟩] "ab" =
      some ⟨"ab", some (10, 0)⟩ ∧
    findNodeByPosition (0, 0) [⟨"ab", none⟩, ⟨"ab", some (500, 0)⟩] "ab" =
      some ⟨"ab", some (500, 0)⟩ := by
  have hidx : strIndexOf "ab" "ab" = some 0 := by decide
  have hd10 : distSq ((10 : ℚ), (0 : ℚ)) (0, 0) = 100 := by norm_num [distSq]
  have hd500 : distSq ((500 : ℚ), (0 : ℚ)) (0, 0) = 250000 := by norm_num [distSq]
  refine ⟨?_, ?_, ?_, ?_⟩
  · intro target nodes text hmeas
    obtain ⟨m, hm, hminc, q, hq⟩ := hmeas
    obtain ⟨d, hd, _⟩ :=
      (findNodeByPositionAux_min target text nodes none none).1 m hm hminc q hq
    rcases findNodeByPositionAux_spec target text nodes none none with
      ⟨_, h2⟩ | ⟨n, hn, h1, hinc, p, hp, h2⟩
    · rw [h2] at hd
      cases hd
    · refine ⟨n, hn, ?_, hinc, p, hp, ?_⟩
      · rcases hE : findNodeByPositionAux target text nodes none none with ⟨b1, b2⟩
        rw [hE] at h1
        have hb1 : b1 = some n := h1
        unfold findNodeByPosition
        rw [hE, hb1]
      · intro m' hm' hinc' q' hq'
        obtain ⟨d', hd', hdle'⟩ :=
          (findNodeByPositionAux_min target text nodes none none).1 m' hm' hinc' q' hq'
        rw [h2] at hd'
        injection hd' with hd'
        apply Real.sqrt_le_sqrt
        rw [hd']
        exact_mod_cast hdle'
  · simp only [findNodeByPosition, findNodeByPositionAux, hidx, hd10, hd500]
    rw [if_neg (by norm_num : ¬ ((250000 : ℚ) < 100))]
  · simp only [findNodeByPosition, findNodeByPositionAux, hidx, hd10, hd500]
    rw [if_pos (by norm_num : ((100 : ℚ) < 250000))]
  · simp only [findNodeByPosition, findNodeByPositionAux, hidx, hd500]

/-- Witness for C4: the two measurable candidates at squared distances 100
and 250000 from the origin resolve to the nearer one through the general
minimality statement. -/
theorem position_resolver_witness :
    ∃ n ∈ [(⟨"ab", some (10, 0)⟩ : TextNode), ⟨"ab", some (500, 0)⟩],
      findNodeByPosition (0, 0) [⟨"ab", some (10, 0)⟩, ⟨"ab", some (500, 0)⟩] "ab" =
        some n ∧
      jsIncludes n.content "ab" = true ∧
      ∃ p, n.pos = some p ∧
        ∀ m ∈ [(⟨"ab", some (10, 0)⟩ : TextNode), ⟨"ab", some (500, 0)⟩],
          jsIncludes m.content "ab" = true → ∀ q, m.pos = some q →
            Real.sqrt ((distSq p (0, 0) : ℚ) : ℝ) ≤
              Real.sqrt ((distSq q (0, 0) : ℚ) : ℝ) :=
  position_resolver.1 (0, 0) [⟨"ab", some (10, 0)⟩, ⟨"ab", some (500, 0)⟩] "ab"
    ⟨⟨"ab", some (10, 0)⟩, by decide, by decide, (10, 0), rfl⟩

theorem calculateContextSimilarity_nonneg (a b : String) :
    0 ≤ calculateContextSimilarity a b := by
  unfold calculateContextSimilarity
  exact div_nonneg (Nat.cast_nonneg _) (le_max_of_le_left (Nat.cast_nonneg _))

theorem nodeContextScore_nonneg (ctx text : String) (n : TextNode) :
    0 ≤ nodeContextScore ctx text n := by
  unfold nodeContextScore
  rcases strIndexOf n.content text with _ | i
  · exact le_refl 0
  · exact calculateContextSimilarity_nonneg _ _

theorem findNodeByContextAux_spec (ctx text : String) :
    ∀ (l : List TextNode) (best : Option TextNode) (bs : ℚ),
      ((findNodeByContextAux ctx text l best bs).1 = best ∧
       (findNodeByContextAux ctx text l best bs).2 = bs ∧
       ∀ m ∈ l, jsIncludes m.content text = true →
         nodeContextScore ctx text m ≤ bs) ∨
      (∃ l₁ n l₂, l = l₁ ++ n :: l₂ ∧
        (findNodeByContextAux ctx text l best bs).1 = some n ∧
        jsIncludes n.content text = true ∧
        (findNodeByContextAux ctx text l best bs).2 = nodeContextScore ctx text n ∧
        bs < nodeContextScore ctx text n ∧
        (∀ m ∈ l₁, jsIncludes m.content text = true →
          nodeContextScore ctx text m < nodeContextScore ctx text n) ∧
        (∀ m ∈ l₂, jsIncludes m.content text = true →
          nodeContextScore ctx text m ≤ nodeContextScore ctx text n)) := by
  intro l
  induction l with
  | nil =>
    intro best bs
    exact Or.inl ⟨rfl, rfl, by simp⟩
  | cons node rest ih =>
    intro best bs
    rcases hidx : strIndexOf node.content text with _ | i
    · have hnode : jsIncludes node.content text = false := by
        simp [jsIncludes, hidx]
      have hred : findNodeByContextAux ctx text (node :: rest) best bs =
          findNodeByContextAux ctx text rest best bs := by
        simp [findNodeByContextAux, hidx]
      rcases ih best bs with ⟨h1, h2, hall⟩ | ⟨l₁, n, l₂, heq, h1, hincn, h2, hlt, hstrict, hle⟩
      · refine Or.inl ⟨by rw [hred]; exact h1, by rw [hred]; exact h2, ?_⟩
        intro m hm hinc
        rcases List.mem_cons.mp hm with rfl | hm
        · rw [hnode] at hinc; cases hinc
        · exact hall m hm hinc
      · refine Or.inr ⟨node :: l₁, n, l₂, by simp [heq], by rw [hred]; exact h1, hincn,
          by rw [hred]; exact h2, hlt, ?_, hle⟩
        intro m hm hinc
        rcases List.mem_cons.mp hm with rfl | hm
        · rw [hnode] at hinc; cases hinc
        · exact hstrict m hm hinc
    · have hnode : jsIncludes node.content text = true := by
        simp [jsIncludes, hidx]
      have hscore : nodeContextScore ctx text node =
          calculateContextSimilarity ctx (getNodeContext node i text.length) := by
        simp [nodeContextScore, hidx]
      by_cases hgt : bs < calculateContextSimilarity ctx (getNodeContext node i text.length)
      · have hred : findNodeByContextAux ctx text (node :: rest) best bs =
            findNodeByContextAux ctx text rest (some node)
              (calculateContextSimilarity ctx (getNodeContext node i text.length)) := by
          simp [findNodeByContextAux, hidx, hgt]
        rcases ih (some node)
            (calculateContextSimilarity ctx (getNodeContext node i text.length)) with
          ⟨h1, h2, hall⟩ | ⟨l₁, n, l₂, heq, h1, hincn, h2, hlt, hstrict, hle⟩
        · refine Or.inr ⟨[], node, rest, rfl, by rw [hred]; exact h1, hnode,
            by rw [hred, hscore]; exact h2, by rw [hscore]; exact hgt, by simp, ?_⟩
          intro m hm hinc
          rw [hscore]
          exact hall m hm hinc
        · refine Or.inr ⟨node :: l₁, n, l₂, by simp [heq], by rw [hred]; exact h1, hincn,
            by rw [hred]; exact h2, ?_, ?_, hle⟩
          · calc bs < calculateContextSimilarity ctx (getNodeContext node i text.length) := hgt
              _ < nodeContextScore ctx text n := hlt
          · intro m hm hinc
            rcases List.mem_cons.mp hm with rfl | hm
            · rw [hscore]; exact hlt
            · exact hstrict m hm hinc
      · have hred : findNodeByContextAux ctx text (node :: rest) best bs =
            findNodeByContextAux ctx text rest best bs := by
          simp [findNodeByContextAux, hidx, hgt]
        rcases ih best bs with ⟨h1, h2, hall⟩ | ⟨l₁, n, l₂, heq, h1, hincn, h2, hlt, hstrict, hle⟩
        · refine Or.inl ⟨by rw [hred]; exact h1, by rw [hred]; exact h2, ?_⟩
          intro m hm hinc
          rcases List.mem_cons.mp hm with rfl | hm
          · rw [hscore]; exact le_of_not_lt hgt
          · exact hall m hm hinc
        · refine Or.inr ⟨node :: l₁, n, l₂, by simp [heq], by rw [hred]; exact h1, hincn,
            by rw [hred]; exact h2, hlt, ?_, hle⟩
          intro m hm hinc
          rcases List.mem_cons.mp hm with rfl | hm
          · rw [hscore]
            calc calculateContextSimilarity ctx (getNodeContext m i text.length) ≤ bs :=
                le_of_not_lt hgt
              _ < nodeContextScore ctx text n := hlt
          · exact hstrict m hm hinc

/-- C3 counterexample: the source counts context words with multiplicity
(`originalWords.forEach` increments once per occurrence of a word found in
the node context), so its score differs from the specified set-intersection
formula as soon as the context text repeats a word: for contextText `"a a"`
the code scores window `"b a"` as `2 / max 2 2 = 1` while the stated formula
gives `|{a} ∩ {b, a}| / max(1, 2) = 1/2`, and the two scorings select
different candidates (the code keeps the first-scanned node `"b a"` on a
tie at score 1, while the specified scoring prefers the node `"a"` with
score `1 > 1/2`). -/
theorem context_scoring_counterexample :
    calculateContextSimilarity "a a" "b a" = 1 ∧
    specContextScore "a a" "b a" = 1 / 2 ∧
    calculateContextSimilarity "a a" "b a" ≠ specContextScore "a a" "b a" ∧
    findNodeByContext "a a" [⟨"b a", none⟩, ⟨"a", none⟩] "a" = some ⟨"b a", none⟩ ∧
    specSelectByContext "a a" [⟨"b a", none⟩, ⟨"a", none⟩] "a" = some ⟨"a", none⟩ ∧
    (⟨"b a", none⟩ : TextNode) ≠ ⟨"a", none⟩ := by
  have a1 : splitWhitespace (jsToLower "a a") = ["a", "a"] := by decide
  have a2 : splitWhitespace (jsToLower "b a") = ["b", "a"] := by decide
  have a3 : splitWhitespace (jsToLower "a") = ["a"] := by decide
  have f1 : ((["a", "a"] : List String).filter
      (fun w => (["b", "a"] : List String).contains w)).length = 2 := by decide
  have f2 : ((["a", "a"] : List String).filter
      (fun w => (["a"] : List String).contains w)).length = 2 := by decide
  have d1 : removeDuplicateTokens [] (["a", "a"] : List String) = ["a"] := by decide
  have d2 : removeDuplicateTokens [] (["b", "a"] : List String) = ["b", "a"] := by decide
  have d3 : removeDuplicateTokens [] (["a"] : List String) = ["a"] := by decide
  have g1 : ((["a"] : List String).filter
      (fun w => (["b", "a"] : List String).contains w)).length = 1 := by decide
  have g2 : ((["a"] : List String).filter
      (fun w => (["a"] : List String).contains w)).length = 1 := by decide
  have cs_ba : calculateContextSimilarity "a a" "b a" = 1 := by
    simp only [calculateContextSimilarity, a1, a2, f1]
    norm_num
  have cs_a : calculateContextSimilarity "a a" "a" = 1 := by
    simp only [calculateContextSimilarity, a1, a3, f2]
    norm_num
  have sp_ba : specContextScore "a a" "b a" = 1 / 2 := by
    simp only [specContextScore, a1, a2, d1, d2, g1]
    norm_num
  have sp_a : specContextScore "a a" "a" = 1 := by
    simp only [specContextScore, a1, a3, d1, d3, g2]
    norm_num
  have i_ba : strIndexOf (⟨"b a", none⟩ : TextNode).content "a" = some 2 := by decide
  have i_a : strIndexOf (⟨"a", none⟩ : TextNode).content "a" = some 0 := by decide
  have w_ba : getNodeContext ⟨"b a", none⟩ 2 "a".length = "b a" := by decide
  have w_a : getNodeContext ⟨"a", none⟩ 0 "a".length = "a" := by decide
  refine ⟨cs_ba, sp_ba, ?_, ?_, ?_, by decide⟩
  · rw [cs_ba, sp_ba]
    norm_num
  · simp only [findNodeByContext, findNodeByContextAux, i_ba, w_ba, cs_ba]
    rw [if_pos (by norm_num : (0 : ℚ) < 1)]
    simp only [findNodeByContextAux, i_a, w_a, cs_a]
    rw [if_neg (by norm_num : ¬ ((1 : ℚ) < 1))]
  · simp only [specSelectByContext, i_ba, i_a, w_ba, w_a, sp_ba, sp_a, List.foldl_cons,
      List.foldl_nil]
    rw [if_pos (by norm_num : (1 / 2 : ℚ) < 1)]

/-- C3 (amended): when a fragment carries context text and there is more
than one candidate, the resolver scores every candidate containing the
fragment as (number of tokens of the lowercased whitespace-split context
text, counted with multiplicity, that occur among the candidate window's
tokens) divided by max(context token count, window token count), where the
window is ±50 characters around the match inside the leaf's text; it
returns the first candidate attaining the highest score (strict-improvement
updates break ties towards the earlier candidate, and the first candidate
is returned when every score is 0).  With contextText "the quick brown fox"
and candidate windows "a quick brown fox jumped" and "completely unrelated
text", it selects the first candidate (scores 3/5 and 0). -/
theorem context_resolver_amended :
    (∀ (ctx text : String) (nodes : List TextNode), nodes ≠ [] →
      (∀ m ∈ nodes, jsIncludes m.content text = true) →
      ∃ l₁ n l₂, nodes = l₁ ++ n :: l₂ ∧
        findNodeByContext ctx nodes text = some n ∧
        (∀ m ∈ nodes, nodeContextScore ctx text m ≤ nodeContextScore ctx text n) ∧
        (∀ m ∈ l₁, nodeContextScore ctx text m < nodeContextScore ctx text n)) ∧
    calculateContextSimilarity "the quick brown fox" "a quick brown fox jumped" = 3 / 5 ∧
    calculateContextSimilarity "the quick brown fox" "completely unrelated text" = 0 ∧
    findNodeByContext "the quick brown fox"
        [⟨"a quick brown fox jumped", none⟩, ⟨"completely unrelated text", none⟩] "e" =
      some ⟨"a quick brown fox jumped", none⟩ := by
  have e1 : splitWhitespace (jsToLower "the quick brown fox") =
      ["the", "quick", "brown", "fox"] := by decide
  have e2 : splitWhitespace (jsToLower "a quick brown fox jumped") =
      ["a", "quick", "brown", "fox", "jumped"] := by decide
  have e3 : splitWhitespace (jsToLower "completely unrelated text") =
      ["completely", "unrelated", "text"] := by decide
  have f1 : ((["the", "quick", "brown", "fox"] : List String).filter
      (fun w => (["a", "quick", "brown", "fox", "jumped"] : List String).contains w)).length
      = 3 := by decide
  have f2 : ((["the", "quick", "brown", "fox"] : List String).filter
      (fun w => (["completely", "unrelated", "text"] : List String).contains w)).length
      = 0 := by decide
  have cs1 : calculateContextSimilarity "the quick brown fox"
      "a quick brown fox jumped" = 3 / 5 := by
    simp only [calculateContextSimilarity, e1, e2, f1]
    norm_num
  have cs2 : calculateContextSimilarity "the quick brown fox"
      "completely unrelated text" = 0 := by
    simp only [calculateContextSimilarity, e1, e3, f2]
    norm_num
  refine ⟨?_, cs1, cs2, ?_⟩
  · intro ctx text nodes hne hall
    rcases findNodeByContextAux_spec ctx text nodes none 0 with
      ⟨h1, h2, hallle⟩ | ⟨l₁, n, l₂, heq, h1, hincn, h2, hlt, hstrict, hle⟩
    · rcases hnodes : nodes with _ | ⟨hd, tl⟩
      · exact absurd hnodes hne
      · subst hnodes
        refine ⟨[], hd, tl, rfl, ?_, ?_, by simp⟩
        · rcases hE : findNodeByContextAux ctx text (hd :: tl) none 0 with ⟨b1, b2⟩
          rw [hE] at h1
          have hb1 : b1 = none := h1
          unfold findNodeByContext
          rw [hE, hb1]
          rfl
        · intro m hm
          have hm0 := hallle m hm (hall m hm)
          have hhd := hallle hd (List.mem_cons_self _ _) (hall hd (List.mem_cons_self _ _))
          have hhd0 : nodeContextScore ctx text hd = 0 :=
            le_antisymm hhd (nodeContextScore_nonneg ctx text hd)
          rw [hhd0]
          exact hm0
    · refine ⟨l₁, n, l₂, heq, ?_, ?_, ?_⟩
      · rcases hE : findNodeByContextAux ctx text nodes none 0 with ⟨b1, b2⟩
        rw [hE] at h1
        have hb1 : b1 = some n := h1
        unfold findNodeByContext
        rw [hE, hb1]
      · intro m hm
        rw [heq] at hm
        rcases List.mem_append.mp hm with hm | hm
        · refine le_of_lt (hstrict m hm (hall m ?_))
          rw [heq]
          exact List.mem_append_left _ hm
        · rcases List.mem_cons.mp hm with rfl | hm'
          · exact le_refl _
          · refine hle m hm' (hall m ?_)
            rw [heq]
            exact List.mem_append_right _ (List.mem_cons_of_mem _ hm')
      · intro m hm
        refine hstrict m hm (hall m ?_)
        rw [heq]
        exact List.mem_append_left _ hm
  · have i1 : strIndexOf (⟨"a quick brown fox jumped", none⟩ : TextNode).content "e" =
        some 22 := by decide
    have i2 : strIndexOf (⟨"completely unrelated text", none⟩ : TextNode).content "e" =
        some 5 := by decide
    have w1 : getNodeContext ⟨"a quick brown fox jumped", none⟩ 22 "e".length =
        "a quick brown fox jumped" := by decide
    have w2 : getNodeContext ⟨"completely unrelated text", none⟩ 5 "e".length =
        "completely unrelated text" := by decide
    have cs1' : calculateContextSimilarity "the quick brown fox"
        "a quick brown fox jumped" = 3 / 5 := by
      simp only [calculateContextSimilarity, e1, e2, f1]
      norm_num
    have cs2' : calculateContextSimilarity "the quick brown fox"
        "completely unrelated text" = 0 := by
      simp only [calculateContextSimilarity, e1, e3, f2]
      norm_num
    simp only [findNodeByContext, findNodeByContextAux, i1, w1, cs1']
    rw [if_pos (by norm_num : (0 : ℚ) < 3 / 5)]
    simp only [findNodeByContextAux, i2, w2, cs2']
    rw [if_neg (by norm_num : ¬ ((3 / 5 : ℚ) < 0))]

/-- Witness for C3's amended theorem at a concrete two-candidate document
whose leaves both contain the fragment "ab". -/
theorem context_resolver_amended_witness :
    ∃ l₁ n l₂,
      [(⟨"xx ab yy", none⟩ : TextNode), ⟨"zz ab", none⟩] = l₁ ++ n :: l₂ ∧
      findNodeByContext "yy zz" [⟨"xx ab yy", none⟩, ⟨"zz ab", none⟩] "ab" = some n ∧
      (∀ m ∈ [(⟨"xx ab yy", none⟩ : TextNode), ⟨"zz ab", none⟩],
        nodeContextScore "yy zz" "ab" m ≤ nodeContextScore "yy zz" "ab" n) ∧
      (∀ m ∈ l₁, nodeContextScore "yy zz" "ab" m < nodeContextScore "yy zz" "ab" n) :=
  context_resolver_amended.1 "yy zz" "ab" [⟨"xx ab yy", none⟩, ⟨"zz ab", none⟩]
    (by decide) (by decide)
